/-
  Verification of bep/imagemeta against its specification.

  This file gives a shallow embedding, in Lean 4, of the parts of the
  Go library bep/imagemeta that the checked properties speak about:

  * `NewRat` (helpers.go) — the public rational factory, modelled with
    Go's 32-bit two's-complement arithmetic (truncated division and
    remainder, wrap-around on overflow);
  * the stream reader (io.go) — byte reads with the "one silent EOF"
    discipline and the out-of-band `errStop` panic;
  * the EXIF/TIFF IFD decoder (metadecoder_exif.go) — `decodeTag`,
    `decodeTags`, `decode`, with the visited-IFD set, the tag-size
    limit, the XMP/IPTC embedded-source branches and the value
    conversion by TIFF type;
  * the IPTC records decoder (the `decodeRecords`/`decodeRecord`/
    `handlestringSlices` family), with the repeatable-field
    accumulation map;
  * the XMP attribute loop;
  * the top-level `Decode` dispatcher (source-mask computation, the
    tag-count wrapper around `ShouldHandleTag`, `errFinal` and the
    panic-recovery normalization);
  * the RAW (TIFF-based) CONFIG walker (imagedecoder_raw.go).

  Pure library functions that the control flow does not depend on
  (character-set transcoding, Unicode trimming, `fmt` formatting, the
  XML parser, the static tag tables, the per-tag value converters) are
  parameters of the embedding ("oracles"): every theorem below is
  proved for all instantiations, which includes the real ones.
  Go `panic`/`recover` is modelled by an explicit non-local result
  (`Res.panic`) threaded through the state monad.
-/
import Mathlib

namespace Imagemeta

/-! ## Go 32-bit arithmetic

Machine integers are modelled as `Int` (signed) and `Nat` (unsigned)
with explicit reduction modulo 2^32 where Go's arithmetic can wrap.
`Int.tdiv`/`Int.tmod` are truncated division and remainder, which is
what Go's `/` and `%` compute; the single exception is
`MinInt32 / -1`, which the Go specification defines to wrap to
`MinInt32`, captured by `wrap32`. -/

/-- Reduce an integer into the int32 range `[-2^31, 2^31)`, the way Go
two's-complement arithmetic wraps. -/
def wrap32 (x : Int) : Int := (x + 2 ^ 31) % 2 ^ 32 - 2 ^ 31

/-- Go division on int32 values (`/`): truncated division with
two's-complement wrap-around (`MinInt32 / -1 = MinInt32`). -/
def goDivInt32 (a b : Int) : Int := wrap32 (a.tdiv b)

/-- Go remainder on int32 values (`%`): truncated remainder; it never
overflows for in-range operands. -/
def goModInt32 (a b : Int) : Int := a.tmod b

/-- Go unary negation on int32 values; `-MinInt32` wraps to `MinInt32`. -/
def goNegInt32 (a : Int) : Int := wrap32 (-a)

theorem wrap32_eq_self {x : Int} (h1 : -2 ^ 31 ≤ x) (h2 : x < 2 ^ 31) :
    wrap32 x = x := by
  unfold wrap32
  have h3 : 0 ≤ x + 2 ^ 31 := by omega
  have h4 : x + 2 ^ 31 < 2 ^ 32 := by omega
  rw [Int.emod_eq_of_lt h3 h4]
  omega

/-- `Int.tmod` computes, in absolute value, the `Nat` remainder of the
absolute values. -/
theorem natAbs_tmod (a b : Int) : (a.tmod b).natAbs = a.natAbs % b.natAbs := by
  cases a <;> cases b <;> simp only [Int.tmod, Int.natAbs_neg] <;> rfl

/-- `Int.tdiv` computes, in absolute value, the `Nat` quotient of the
absolute values. -/
theorem natAbs_tdiv (a b : Int) : (a.tdiv b).natAbs = a.natAbs / b.natAbs := by
  cases a <;> cases b <;> simp only [Int.tdiv, Int.natAbs_neg] <;> rfl

/-! ## The rational factory `NewRat` (helpers.go)

```go
func NewRat[T int32 | uint32](num, den T) (Rat[T], error) {
    if den == 0 { return nil, fmt.Errorf("denominator must be non-zero") }
    gcd := func(a, b T) T {
        for b != 0 { a, b = b, a%b }
        return a
    }
    d := gcd(num, den)
    if d != 1 { num, den = num/d, den/d }
    if den < 0 { num, den = -num, -den }
    return &rat[T]{num: num, den: den}, nil
}
```
The generic function is embedded once per instantiation. -/

/-- The Euclid loop inside `NewRat`, at `T = int32` (`%` is Go's
truncated remainder; no operation in the loop can overflow for
in-range inputs). -/
def ratGcdLoop (a b : Int) : Int :=
  if hb0 : b = 0 then a else ratGcdLoop b (a.tmod b)
termination_by b.natAbs
decreasing_by
  rw [natAbs_tmod]
  exact Nat.mod_lt _ (Int.natAbs_pos.mpr hb0)

/-- The Euclid loop inside `NewRat`, at `T = uint32` (`%` is `Nat`
remainder). -/
def ratGcdLoopNat (a b : Nat) : Nat :=
  if hb0 : b = 0 then a else ratGcdLoopNat b (a % b)
termination_by b
decreasing_by
  exact Nat.mod_lt _ (Nat.pos_of_ne_zero hb0)

/-- The gcd-reduction step of `NewRat[int32]`:
`d := gcd(num, den); if d != 1 { num, den = num/d, den/d }`. -/
def ratReduceInt32 (num den : Int) : Int × Int :=
  if ratGcdLoop num den ≠ 1 then
    (goDivInt32 num (ratGcdLoop num den), goDivInt32 den (ratGcdLoop num den))
  else (num, den)

/-- The sign-normalization step of `NewRat[int32]`:
`if den < 0 { num, den = -num, -den }`. -/
def ratSignNormInt32 (p : Int × Int) : Int × Int :=
  if p.2 < 0 then (goNegInt32 p.1, goNegInt32 p.2) else p

/-- `NewRat[int32]` from helpers.go: `none` models the non-nil error
for a zero denominator; otherwise the reduced, sign-normalized pair,
computed with Go int32 arithmetic. -/
def NewRatInt32 (num den : Int) : Option (Int × Int) :=
  if den = 0 then none
  else some (ratSignNormInt32 (ratReduceInt32 num den))

/-- `NewRat[uint32]` from helpers.go; the `den < 0` sign-normalization
branch is unreachable for the unsigned instantiation. -/
def NewRatUInt32 (num den : Nat) : Option (Nat × Nat) :=
  if den = 0 then none
  else if ratGcdLoopNat num den ≠ 1 then
    some (num / ratGcdLoopNat num den, den / ratGcdLoopNat num den)
  else some (num, den)

theorem ratGcdLoopNat_eq_gcd (a b : Nat) : ratGcdLoopNat a b = Nat.gcd a b := by
  generalize hk : b = k
  induction k using Nat.strong_induction_on generalizing a b with
  | _ k ih =>
    subst hk
    rw [ratGcdLoopNat]
    by_cases h : b = 0
    · subst h; simp
    · rw [dif_neg h]
      rw [ih (a % b) (Nat.mod_lt _ (Nat.pos_of_ne_zero h)) b (a % b) rfl]
      rw [Nat.gcd_comm b (a % b), ← Nat.gcd_rec b a, Nat.gcd_comm b a]

/-- The signed Euclid loop computes the gcd of the absolute values, up
to sign. -/
theorem natAbs_ratGcdLoop (a b : Int) :
    (ratGcdLoop a b).natAbs = Nat.gcd a.natAbs b.natAbs := by
  generalize hk : b.natAbs = k
  induction k using Nat.strong_induction_on generalizing a b with
  | _ k ih =>
    rw [ratGcdLoop]
    by_cases h : b = 0
    · subst h
      simp only [Int.natAbs_zero] at hk
      subst hk
      simp
    · rw [dif_neg h]
      have hlt : (a.tmod b).natAbs < k := by
        rw [natAbs_tmod, ← hk]
        exact Nat.mod_lt _ (Int.natAbs_pos.mpr h)
      rw [ih (a.tmod b).natAbs hlt b (a.tmod b) rfl, natAbs_tmod, ← hk]
      rw [Nat.gcd_comm b.natAbs (a.natAbs % b.natAbs), ← Nat.gcd_rec b.natAbs a.natAbs,
        Nat.gcd_comm b.natAbs a.natAbs]

/-- Helper: the reduction-and-sign-normalization tail of `NewRatInt32`
is correct for any exact common divisor `d` whose absolute value is
the gcd, provided no intermediate value can wrap. -/
theorem NewRatInt32_spec (num den : Int)
    (hnum : num.natAbs < 2 ^ 31) (hden : den.natAbs < 2 ^ 31) (hdz : den ≠ 0) :
    ∃ n d, NewRatInt32 num den = some (n, d) ∧ 0 < d ∧
      Nat.gcd n.natAbs d.natAbs = 1 ∧ n * den = num * d := by
  have habs := natAbs_ratGcdLoop num den
  have hg0 : 0 < Nat.gcd num.natAbs den.natAbs :=
    Nat.gcd_pos_of_pos_right _ (Int.natAbs_pos.mpr hdz)
  have hD0 : ratGcdLoop num den ≠ 0 := by
    intro h
    rw [h] at habs
    simp at habs
    omega
  -- Facts about the pair after the gcd-reduction step.
  have key : ∃ n' d' : Int,
      ratReduceInt32 num den = (n', d') ∧
      Nat.gcd n'.natAbs d'.natAbs = 1 ∧ n' * den = num * d' ∧ d' ≠ 0 ∧
      n'.natAbs < 2 ^ 31 ∧ d'.natAbs < 2 ^ 31 := by
    by_cases hd1 : ratGcdLoop num den = 1
    · refine ⟨num, den, ?_, ?_, by ring, hdz, hnum, hden⟩
      · rw [ratReduceInt32, if_neg (by simp [hd1])]
      · rw [← habs, hd1]
        rfl
    · set D := ratGcdLoop num den with hDdef
      have hdvd_num : D ∣ num := by
        rw [← Int.natAbs_dvd_natAbs, habs]
        exact Nat.gcd_dvd_left _ _
      have hdvd_den : D ∣ den := by
        rw [← Int.natAbs_dvd_natAbs, habs]
        exact Nat.gcd_dvd_right _ _
      obtain ⟨n', hn'⟩ := hdvd_num
      obtain ⟨d', hd'⟩ := hdvd_den
      have htd_n : num.tdiv D = n' := by rw [hn']; exact Int.mul_tdiv_cancel_left _ hD0
      have htd_d : den.tdiv D = d' := by rw [hd']; exact Int.mul_tdiv_cancel_left _ hD0
      have hn'abs : n'.natAbs ≤ num.natAbs := by
        rw [hn', Int.natAbs_mul]
        exact Nat.le_mul_of_pos_left _ (Int.natAbs_pos.mpr hD0)
      have hd'abs : d'.natAbs ≤ den.natAbs := by
        rw [hd', Int.natAbs_mul]
        exact Nat.le_mul_of_pos_left _ (Int.natAbs_pos.mpr hD0)
      have hwrap_n : goDivInt32 num D = n' := by
        unfold goDivInt32
        rw [htd_n]
        exact wrap32_eq_self (by omega) (by omega)
      have hwrap_d : goDivInt32 den D = d' := by
        unfold goDivInt32
        rw [htd_d]
        exact wrap32_eq_self (by omega) (by omega)
      refine ⟨n', d', by rw [ratReduceInt32, if_pos hd1, hwrap_n, hwrap_d], ?_, ?_, ?_,
        by omega, by omega⟩
      · -- coprimality of the reduced pair
        have hnum_abs : num.natAbs = D.natAbs * n'.natAbs := by
          rw [hn', Int.natAbs_mul]
        have hden_abs : den.natAbs = D.natAbs * d'.natAbs := by
          rw [hd', Int.natAbs_mul]
        have hDabs0 : 0 < D.natAbs := Int.natAbs_pos.mpr hD0
        have hn'eq : n'.natAbs = num.natAbs / D.natAbs := by
          rw [hnum_abs, Nat.mul_div_cancel_left _ hDabs0]
        have hd'eq : d'.natAbs = den.natAbs / D.natAbs := by
          rw [hden_abs, Nat.mul_div_cancel_left _ hDabs0]
        rw [hn'eq, hd'eq, habs]
        exact Nat.coprime_div_gcd_div_gcd hg0
      · -- cross-multiplication invariant
        rw [hn', hd']
        ring
      · -- the reduced denominator is non-zero
        intro h
        rw [h, mul_zero] at hd'
        exact hdz hd'
  obtain ⟨n', d', hpair, hcop, hcross, hd'0, hn'lt, hd'lt⟩ := key
  unfold NewRatInt32
  rw [if_neg hdz, hpair]
  by_cases hneg : d' < 0
  · refine ⟨goNegInt32 n', goNegInt32 d',
      by rw [ratSignNormInt32, if_pos (show (n', d').2 < 0 from hneg)], ?_, ?_, ?_⟩
    · unfold goNegInt32
      rw [wrap32_eq_self (by omega) (by omega)]
      omega
    · unfold goNegInt32
      rw [wrap32_eq_self (by omega) (by omega), wrap32_eq_self (by omega) (by omega)]
      simpa [Int.natAbs_neg] using hcop
    · unfold goNegInt32
      rw [wrap32_eq_self (by omega) (by omega), wrap32_eq_self (by omega) (by omega)]
      rw [neg_mul, hcross, mul_neg]
  · exact ⟨n', d',
      by rw [ratSignNormInt32, if_neg (show ¬(n', d').2 < 0 from hneg)],
      by omega, hcop, hcross⟩

/-- `NewRat[uint32]` produces a reduced pair with positive denominator
and the exact same value. -/
theorem NewRatUInt32_spec (num den : Nat) (hdz : den ≠ 0) :
    ∃ n d, NewRatUInt32 num den = some (n, d) ∧ 0 < d ∧
      Nat.gcd n d = 1 ∧ n * den = num * d := by
  have hg := ratGcdLoopNat_eq_gcd num den
  have hg0 : 0 < Nat.gcd num den := Nat.gcd_pos_of_pos_right _ (Nat.pos_of_ne_zero hdz)
  unfold NewRatUInt32
  rw [if_neg hdz]
  by_cases h1 : ratGcdLoopNat num den = 1
  · refine ⟨num, den, ?_, Nat.pos_of_ne_zero hdz, ?_, by ring⟩
    · rw [if_neg (by simp [h1])]
    · rw [← hg, h1]
  · refine ⟨num / ratGcdLoopNat num den, den / ratGcdLoopNat num den,
      by rw [if_pos h1], ?_, ?_, ?_⟩
    · rw [hg]
      exact Nat.div_pos (Nat.le_of_dvd (Nat.pos_of_ne_zero hdz) (Nat.gcd_dvd_right _ _))
        hg0
    · rw [hg]
      exact Nat.coprime_div_gcd_div_gcd hg0
    · rw [hg]
      have hdl : Nat.gcd num den ∣ num := Nat.gcd_dvd_left _ _
      have hdr : Nat.gcd num den ∣ den := Nat.gcd_dvd_right _ _
      calc num / Nat.gcd num den * den
          = num / Nat.gcd num den * (Nat.gcd num den * (den / Nat.gcd num den)) := by
            rw [Nat.mul_div_cancel' hdr]
        _ = num / Nat.gcd num den * Nat.gcd num den * (den / Nat.gcd num den) := by
            ring
        _ = num * (den / Nat.gcd num den) := by rw [Nat.div_mul_cancel hdl]

/-- C4 (counterexample): the claim as stated is false on the code.
At `(num, den) = (1, -2^31)` over int32 the factory succeeds but, because
negating `-2^31` wraps to itself in Go's two's-complement arithmetic,
the returned denominator is `-2^31`, which is not positive. -/
theorem C4_NewRat_counterexample :
    NewRatInt32 1 (-(2 ^ 31)) = some (-1, -(2 ^ 31)) ∧
      ¬((0 : Int) < -(2 ^ 31)) := by
  have hloop : ratGcdLoop 1 (-(2 ^ 31)) = 1 := by
    rw [ratGcdLoop, dif_neg (by decide),
      (show Int.tmod 1 (-(2 ^ 31)) = 1 by decide),
      ratGcdLoop, dif_neg (by decide),
      (show Int.tmod (-(2 ^ 31)) 1 = 0 by decide),
      ratGcdLoop, dif_pos rfl]
  refine ⟨?_, by decide⟩
  unfold NewRatInt32 ratReduceInt32 ratSignNormInt32
  rw [if_neg (by decide), hloop]
  norm_num [goNegInt32, wrap32]

/-- C4 (amended): for every pair `(num, den)` with `den ≠ 0`, over
uint32 always and over int32 whenever no 32-bit two's-complement
overflow intervenes (`|num| < 2^31` and `|den| < 2^31`, i.e. neither
operand is `-2^31`), `NewRat` succeeds and returns `(n, d)` with
`d > 0`, `gcd(|n|, d) = 1`, and `n / d = num / den` as exact rationals
(sign included), expressed by the cross-multiplication equation
`n * den = num * d`. -/
theorem C4_NewRat_normalization :
    (∀ num den : Int, num.natAbs < 2 ^ 31 → den.natAbs < 2 ^ 31 → den ≠ 0 →
      ∃ n d, NewRatInt32 num den = some (n, d) ∧ 0 < d ∧
        Nat.gcd n.natAbs d.natAbs = 1 ∧ n * den = num * d) ∧
    (∀ num den : Nat, num < 2 ^ 32 → den < 2 ^ 32 → den ≠ 0 →
      ∃ n d, NewRatUInt32 num den = some (n, d) ∧ 0 < d ∧
        Nat.gcd n d = 1 ∧ n * den = num * d) :=
  ⟨fun num den h1 h2 h3 => NewRatInt32_spec num den h1 h2 h3,
   fun num den _ _ h3 => NewRatUInt32_spec num den h3⟩

/-- Witness for C4: the amended theorem applied at the concrete inputs
`(2, -4)` over int32 and `(6, 4)` over uint32. -/
theorem C4_NewRat_normalization_witness :
    (∃ n d, NewRatInt32 2 (-4) = some (n, d) ∧ 0 < d ∧
      Nat.gcd n.natAbs d.natAbs = 1 ∧ n * (-4) = 2 * d) ∧
    (∃ n d, NewRatUInt32 6 4 = some (n, d) ∧ 0 < d ∧
      Nat.gcd n d = 1 ∧ n * 4 = 6 * d) :=
  ⟨C4_NewRat_normalization.1 2 (-4) (by decide) (by decide) (by decide),
   C4_NewRat_normalization.2 6 4 (by decide) (by decide) (by decide)⟩

/-! ## Errors, values, tags, events

Go compares the sentinel errors by identity (`err == errStop`), so each
distinct error object is one constructor. -/

/-- The error values the decoders create or test for. -/
inductive GoError where
  /-- `ErrStopWalking` — the public "stop walking" sentinel. -/
  | stopWalking
  /-- `errStop` — the internal out-of-band stop sentinel. -/
  | stop
  /-- `io.EOF`. -/
  | eof
  /-- `io.ErrUnexpectedEOF` (its text contains "unexpected EOF"). -/
  | unexpectedEOF
  /-- `errShortRead`. -/
  | shortRead
  /-- An `*InvalidFormatError` wrapping an inner error. -/
  | invalidFormat (inner : GoError)
  /-- `newInvalidFormatErrorf(...)` with a fixed message. -/
  | invalidFormatMsg (msg : String)
  /-- A Go runtime panic value (failed type assertion); implements `error`. -/
  | runtimeError (msg : String)
  /-- Any other `fmt.Errorf` error with a fixed message. -/
  | errorMsg (msg : String)
  /-- An error returned by a caller-supplied callback, tagged for
  identity; `ueof` records whether its text contains "unexpected EOF". -/
  | userErr (tag : Nat) (ueof : Bool)
  /-- Fuel exhaustion of the embedded IFD recursion. This is an artifact
  of the shallow embedding (the Go code has no fuel); the C6 theorem
  proves it unreachable from the real entry point. -/
  | fuelExhausted
  deriving DecidableEq, Repr

/-- A decoded Go value (`any`), as produced by the EXIF/IPTC decoders.
Go strings are byte sequences; floats are kept as IEEE bit patterns,
which is all the embedded control flow inspects. -/
inductive Val where
  | vnil
  | u8 (n : Nat)
  | u16 (n : Nat)
  | u32 (n : Nat)
  | i32 (n : Int)
  | f32 (bits : Nat)
  | f64 (bits : Nat)
  /-- A `Rat[uint32]` as returned by `NewRat`. -/
  | urat (num den : Nat)
  /-- A `Rat[int32]` as returned by `NewRat`. -/
  | irat (num den : Int)
  /-- A Go `int`. -/
  | int (n : Int)
  /-- A Go `string` (byte sequence). -/
  | str (s : List Nat)
  /-- A Go `[]byte`. -/
  | bytes (bs : List Nat)
  /-- A Go `[]any`. -/
  | list (vs : List Val)
  /-- An `error` stored as a value. -/
  | goErr (e : GoError)

/-- The Go string `"undef"` as bytes. -/
def undefBytes : List Nat := [117, 110, 100, 101, 102]

/-- The `undef` constant of metadecoder_exif.go. -/
def undefV : Val := .str undefBytes

/-- Source bitmask values (part_005). -/
def EXIF : Nat := 1
def IPTC : Nat := 2
def XMP : Nat := 4
def CONFIG : Nat := 8

/-- `Source.Has`. -/
def sourceHas (t source : Nat) : Bool := t &&& source != 0

/-- `Source.IsZero`. -/
def sourceIsZero (t : Nat) : Bool := t == 0

/-- `TagInfo` (part_005): the unit streamed to the caller. -/
structure TagInfo where
  source : Nat
  tag : String
  nspace : String
  value : Val

/-- Observable events of a decode run: each `HandleTag` invocation, and
(for the C6 statement) each registration of a pointed-to IFD kind in
the visited set — the unique gate through which the descent into that
kind's IFD is reached (`decodeTag`, source lines 329-335). -/
inductive Event where
  | tag (ti : TagInfo)
  | enterIFD (kind : String)

/-- The `.tag` events of a trace. -/
def tagsOf : List Event → List TagInfo
  | [] => []
  | .tag ti :: rest => ti :: tagsOf rest
  | .enterIFD _ :: rest => tagsOf rest

/-- Occurrences of `.enterIFD k` in a trace. -/
def countEnter (k : String) : List Event → Nat
  | [] => 0
  | .enterIFD k' :: rest => (if k' = k then 1 else 0) + countEnter k rest
  | .tag _ :: rest => countEnter k rest

/-! ## The stream reader (io.go)

`streamReader` wraps a seekable byte source. Reads go through a shared
scratch buffer (`buf`); a failed read calls `stop`, which tolerates one
silent EOF (leaving the scratch buffer stale) and otherwise records the
error and panics with `errStop`. -/

/-- The `streamReader` state. Positions are integers (Go int64); `bo`
is the byte order (`true` = big-endian). -/
structure SR where
  data : List Nat
  pos : Int
  bo : Bool
  buf : List Nat
  isEOF : Bool
  readErr : Option GoError
  readerOffset : Int

/-- A fresh `streamReader` over `data` with byte order `bo`. -/
def SR.mk0 (data : List Nat) (bo : Bool) : SR :=
  { data := data, pos := 0, bo := bo, buf := [], isEOF := false,
    readErr := none, readerOffset := 0 }

/-- Global decode-call state: the tag counter of the `ShouldHandleTag`
wrapper installed by `Decode`, the event trace, the visited-IFD set of
the EXIF decoder instance, and a count of `Warnf` calls. -/
structure Glob where
  tagCount : Nat
  events : List Event
  seenIFDs : List String
  warns : Nat
  /-- `result.ImageConfig`, populated by the CONFIG paths. -/
  config : Option (Nat × Nat)

def Glob.mk0 : Glob :=
  { tagCount := 0, events := [], seenIFDs := [], warns := 0, config := none }

/-- Outcome of a computation: normal return, normal error return, or a
propagating panic. -/
inductive Res (α : Type) where
  | ok (a : α)
  | err (e : GoError)
  | panic (e : GoError)

/-- The decoder monad: state passing over the stream reader and the
global state, with short-circuiting error returns and panics. -/
def M (α : Type) : Type := SR → Glob → SR × Glob × Res α

def mPure {α : Type} (a : α) : M α := fun s g => (s, g, .ok a)

def mBind {α β : Type} (m : M α) (f : α → M β) : M β := fun s g =>
  match m s g with
  | (s', g', .ok a) => f a s' g'
  | (s', g', .err e) => (s', g', .err e)
  | (s', g', .panic e) => (s', g', .panic e)

instance : Monad M where
  pure := mPure
  bind := mBind

/-- Return a non-nil error (Go `return err`). -/
def mErr {α : Type} (e : GoError) : M α := fun s g => (s, g, .err e)

/-- Panic with a value (Go `panic(e)`). -/
def mPanic {α : Type} (e : GoError) : M α := fun s g => (s, g, .panic e)

def getSR : M SR := fun s g => (s, g, .ok s)

def modifySR (f : SR → SR) : M Unit := fun s g => (f s, g, .ok ())

def getGlob : M Glob := fun s g => (s, g, .ok g)

def modifyGlob (f : Glob → Glob) : M Unit := fun s g => (s, f g, .ok ())

/-- A `Warnf` call. -/
def warn : M Unit := modifyGlob fun g => { g with warns := g.warns + 1 }

/-- Byte access into the underlying data (reads are bounds-checked
before use). -/
def byteAt (d : List Nat) (i : Nat) : Nat := d.getD i 0

/-- The `n` bytes of `d` starting at `start`. -/
def bytesAt (d : List Nat) (start n : Nat) : List Nat :=
  (List.range n).map fun i => byteAt d (start + i)

/-- `streamReader.stop`: tolerate one silent EOF, otherwise record the
error and panic with `errStop` (io.go lines 219-230). -/
def stop (e : GoError) : M Unit := fun s g =>
  if e = .eof ∧ ¬s.isEOF then ({ s with isEOF := true }, g, .ok ())
  else ({ s with readErr := some e }, g, .panic .stop)

/-- `allocateBuf`: grow the scratch buffer to length `n`, losing its
contents (Go `make([]byte, length)`). -/
def allocateBuf (n : Nat) : M Unit := modifySR fun s =>
  if n > s.buf.length then { s with buf := List.replicate n 0 } else s

/-- `io.ReadFull` from the main reader into the scratch buffer,
returning the error value (`none` = nil): the full `n` bytes when
available, `io.EOF` when none are, `io.ErrUnexpectedEOF` after a
partial read (which still consumes the remaining bytes). -/
def readNIntoBufE (n : Nat) : M (Option GoError) := do
  allocateBuf n
  fun s g =>
    let len := s.data.length
    let start := s.pos.toNat
    let avail : Nat := if s.pos < 0 ∨ len ≤ start then 0 else len - start
    if n ≤ avail then
      ({ s with buf := bytesAt s.data start n ++ s.buf.drop n, pos := s.pos + n },
        g, .ok none)
    else if avail = 0 then (s, g, .ok (some .eof))
    else
      ({ s with buf := bytesAt s.data start avail ++ s.buf.drop avail, pos := len },
        g, .ok (some .unexpectedEOF))

/-- `readNIntoBuf`: read into the scratch buffer, `stop`ping on error. -/
def readNIntoBuf (n : Nat) : M Unit := do
  match ← readNIntoBufE n with
  | none => pure ()
  | some e => stop e

/-- Big- or little-endian 16-bit value from the first bytes of `b`. -/
def u16At (bo : Bool) (b : List Nat) : Nat :=
  if bo then byteAt b 0 * 256 + byteAt b 1 else byteAt b 1 * 256 + byteAt b 0

/-- Big- or little-endian 32-bit value from the first bytes of `b`. -/
def u32At (bo : Bool) (b : List Nat) : Nat :=
  if bo then
    ((byteAt b 0 * 256 + byteAt b 1) * 256 + byteAt b 2) * 256 + byteAt b 3
  else
    ((byteAt b 3 * 256 + byteAt b 2) * 256 + byteAt b 1) * 256 + byteAt b 0

/-- Big- or little-endian 64-bit value from the first bytes of `b`. -/
def u64At (bo : Bool) (b : List Nat) : Nat :=
  if bo then u32At true b * 2 ^ 32 + u32At true (b.drop 4)
  else u32At false (b.drop 4) * 2 ^ 32 + u32At false b

/-- Reinterpret a uint32 as an int32 (`int32(x)`). -/
def toInt32 (x : Nat) : Int := if x < 2 ^ 31 then (x : Int) else (x : Int) - 2 ^ 32

/-- Truncate an integer to a uint32 (`uint32(x)`). -/
def u32OfInt (x : Int) : Nat := (x % (2 ^ 32 : Int)).toNat

/-- `read1`. -/
def read1 : M Nat := do
  readNIntoBuf 1
  let s ← getSR
  pure (byteAt s.buf 0)

/-- `read2`. -/
def read2 : M Nat := do
  readNIntoBuf 2
  let s ← getSR
  pure (u16At s.bo s.buf)

/-- `read4`. -/
def read4 : M Nat := do
  readNIntoBuf 4
  let s ← getSR
  pure (u32At s.bo s.buf)

/-- `seek` to an absolute position; a negative position is a reader
error, routed through `stop`. -/
def seek (p : Int) : M Unit := fun s g =>
  if p < 0 then
    ({ s with readErr := some (.errorMsg "bytes.Reader.Seek: negative position") },
      g, .panic .stop)
  else ({ s with pos := p }, g, .ok ())

/-- `skip`: relative seek whose error (negative resulting position) is
ignored, leaving the position unchanged. -/
def skip (n : Int) : M Unit := fun s g =>
  if s.pos + n < 0 then (s, g, .ok ()) else ({ s with pos := s.pos + n }, g, .ok ())

/-- `pos`. -/
def getPos : M Int := do pure (← getSR).pos

/-- Modelled from the spec: the stream reader's scoped "preserve
position" helper, missing from src/ (only callers are present):
"a scoped 'preserve position' helper that restores the pre-call
position after a closure returns"; restoration is deferred, so it also
applies on error and panic exits. -/
def preservePos {α : Type} (body : M α) : M α := fun s g =>
  match body s g with
  | (s', g', r) => ({ s' with pos := s.pos }, g', r)

/-- An in-memory sub-reader over materialized bytes (`bytes.NewReader`
over a pooled buffer). -/
structure SubR where
  data : List Nat
  pos : Nat

/-- The `io.Reader` argument of the value-reading helpers: either the
main stream reader or a materialized sub-reader. -/
inductive Rdr where
  | main
  | sub (r : SubR)

/-- `readNFromRIntoBufE`: `io.ReadFull` from `r` into the shared
scratch buffer. -/
def readNFromRIntoBufE (n : Nat) : Rdr → M (Rdr × Option GoError)
  | .main => do
      let e ← readNIntoBufE n
      pure (.main, e)
  | .sub rr => do
      allocateBuf n
      fun s g =>
        let avail : Nat := rr.data.length - rr.pos
        if n ≤ avail then
          ({ s with buf := bytesAt rr.data rr.pos n ++ s.buf.drop n }, g,
            .ok (.sub { rr with pos := rr.pos + n }, none))
        else if avail = 0 then (s, g, .ok (.sub rr, some .eof))
        else
          ({ s with buf := bytesAt rr.data rr.pos avail ++ s.buf.drop avail }, g,
            .ok (.sub { rr with pos := rr.data.length }, some .unexpectedEOF))

/-- `readNFromRIntoBuf`: `stop` on a read error. -/
def readNFromRIntoBuf (n : Nat) (r : Rdr) : M Rdr := do
  let (r', e) ← readNFromRIntoBufE n r
  match e with
  | none => pure r'
  | some er => do
      stop er
      pure r'

/-- `read1r`. -/
def read1r (r : Rdr) : M (Nat × Rdr) := do
  let r' ← readNFromRIntoBuf 1 r
  let s ← getSR
  pure (byteAt s.buf 0, r')

/-- `read2r`. -/
def read2r (r : Rdr) : M (Nat × Rdr) := do
  let r' ← readNFromRIntoBuf 2 r
  let s ← getSR
  pure (u16At s.bo s.buf, r')

/-- `read4r`. -/
def read4r (r : Rdr) : M (Nat × Rdr) := do
  let r' ← readNFromRIntoBuf 4 r
  let s ← getSR
  pure (u32At s.bo s.buf, r')

/-- `read4sr`: 4 bytes as an int32. -/
def read4sr (r : Rdr) : M (Int × Rdr) := do
  let r' ← readNFromRIntoBuf 4 r
  let s ← getSR
  pure (toInt32 (u32At s.bo s.buf), r')

/-- `read8r`. -/
def read8r (r : Rdr) : M (Nat × Rdr) := do
  let r' ← readNFromRIntoBuf 8 r
  let s ← getSR
  pure (u64At s.bo s.buf, r')

/-- `readBytesVolatile` from the main reader. -/
def readBytesVolatile (n : Nat) : M (List Nat) := do
  allocateBuf n
  readNIntoBuf n
  let s ← getSR
  pure (s.buf.take n)

/-- `readBytesFromRVolatile`. -/
def readBytesFromRVolatile (n : Nat) (r : Rdr) : M (List Nat × Rdr) := do
  allocateBuf n
  let r' ← readNFromRIntoBuf n r
  let s ← getSR
  pure (s.buf.take n, r')

/-- `bufferedReader` (io.go): materialize the next `length` bytes of
the main reader into an owned buffer (`io.CopyN`), returning a
sub-reader over them; a short copy is a normal error return. -/
def bufferedReader (length : Int) : M SubR := fun s g =>
  let len := s.data.length
  let start := s.pos.toNat
  let avail : Int := if s.pos < 0 ∨ len ≤ start then 0 else ((len - start : Nat) : Int)
  if length ≤ 0 then
    if length = 0 then (s, g, .ok ⟨[], 0⟩) else (s, g, .err .eof)
  else if length ≤ avail then
    ({ s with pos := s.pos + length }, g, .ok ⟨bytesAt s.data start length.toNat, 0⟩)
  else ({ s with pos := (len : Int) }, g, .err .eof)

/-- Run a computation over a fresh big-endian stream reader on
materialized bytes (a nested decoder instance), sharing the global
state. -/
def runSub {α : Type} (data : List Nat) (body : M α) : M α := fun s g =>
  match body (SR.mk0 data true) g with
  | (_, g', r) => (s, g', r)

/-! ## Options, oracles, context -/

/-- The caller-facing options that reach the embedded decoders, after
`Decode` has filled defaults and installed the counting wrapper. -/
structure Opts where
  sources : Nat
  shouldHandleTag : TagInfo → Bool
  handleTag : TagInfo → Option GoError
  /-- The optional user raw-XMP handler: given the packet bytes it
  returns its error and how many bytes it consumed. -/
  handleXMP : Option (List Nat → Option GoError × Nat)
  limitNumTags : Nat
  limitTagSize : Nat

/-- One entry of the static IPTC dataset table (only the fields the
decoder control flow reads). -/
structure IptcField where
  name : String
  recordName : String
  format : String
  repeatable : Bool

/-- One XML attribute of the parsed `rdf:Description` element. -/
structure XmpAttr where
  space : String
  localName : String
  value : List Nat

/-- External pure collaborators of the decoders (static tables, text
transcoding/formatting, the XML parser, the per-tag value converters).
Every theorem is proved for all instantiations. -/
structure Ora where
  /-- `exifFieldsAll` (tag-ID → name); `none` models a missing entry. -/
  exifFields : Nat → Option String
  /-- `exifValueConverterMap`. -/
  exifConv : String → Option (Val → Val)
  /-- `getIptcRecordFieldDef`. -/
  iptcFields : Nat → Nat → Option IptcField
  /-- `iptcValueConverterMap`. -/
  iptcConv : String → Option (Val → Val)
  /-- The ISO-8859-1 decoder (`charmap.ISO8859_1.NewDecoder().Bytes`). -/
  latin1 : List Nat → List Nat
  /-- `strings.TrimSpace` on byte strings. -/
  trimSpace : List Nat → List Nat
  /-- `printableString` on byte strings. -/
  printable : List Nat → List Nat
  /-- `fmt.Sprintf("%v", v)`. -/
  formatV : Val → List Nat
  /-- The XML decode of an XMP packet into `rdf:Description`
  attributes; `none` is a parse error. -/
  xmpParse : List Nat → Option (List XmpAttr)

/-- Everything a decoder instance closes over: the oracles, the
effective options, the EXIF thumbnail offset, and the Go map iteration
order used when flushing accumulated repeatable IPTC fields (Go
randomizes it; theorems quantify over it). -/
structure Ctx where
  ora : Ora
  opts : Opts
  thumbnailOffset : Int
  mapOrd : List (TagInfo × List (List Nat)) → List (TagInfo × List (List Nat))

/-- The counting wrapper that `Decode` installs around the caller's
`ShouldHandleTag` (part_005 lines 160-168): increment the shared tag
counter, panic with `ErrStopWalking` past the limit, else delegate. -/
def shouldHandleTagW (c : Ctx) (ti : TagInfo) : M Bool := fun s g =>
  if g.tagCount + 1 > c.opts.limitNumTags then
    (s, { g with tagCount := g.tagCount + 1 }, .panic .stopWalking)
  else (s, { g with tagCount := g.tagCount + 1 }, .ok (c.opts.shouldHandleTag ti))

/-- A `HandleTag` invocation: recorded in the trace, result from the
caller's callback. -/
def handleTagW (c : Ctx) (ti : TagInfo) : M (Option GoError) := fun s g =>
  (s, { g with events := g.events ++ [.tag ti] }, .ok (c.opts.handleTag ti))

/-! ## Shared helpers (helpers.go) -/

/-- `trimBytesNulls`: strip leading and trailing zero bytes (the
source scans for the first/last non-zero index; this is the same
function). -/
def trimBytesNulls (b : List Nat) : List Nat :=
  ((b.dropWhile (· == 0)).reverse.dropWhile (· == 0)).reverse

/-- `toPrintableValue`. -/
def toPrintableValue (ora : Ora) : Val → Val
  | .str s => .str (ora.printable s)
  | .bytes b => .str (ora.printable (trimBytesNulls b))
  | v => v

/-- `toString` (helpers.go). -/
def goToString (ora : Ora) : Val → List Nat
  | .str s => s
  | .bytes b => trimBytesNulls b
  | v => ora.formatV v

mutual
/-- Structural equality of values, as Go's `==` on comparable
interface values. -/
def valBeq : Val → Val → Bool
  | .vnil, .vnil => true
  | .u8 a, .u8 b => a == b
  | .u16 a, .u16 b => a == b
  | .u32 a, .u32 b => a == b
  | .i32 a, .i32 b => a == b
  | .f32 a, .f32 b => a == b
  | .f64 a, .f64 b => a == b
  | .urat a b, .urat a' b' => a == a' && b == b'
  | .irat a b, .irat a' b' => a == a' && b == b'
  | .int a, .int b => a == b
  | .str a, .str b => a == b
  | .bytes a, .bytes b => a == b
  | .list a, .list b => valListBeq a b
  | .goErr a, .goErr b => a == b
  | _, _ => false

def valListBeq : List Val → List Val → Bool
  | [], [] => true
  | a :: as, b :: bs => valBeq a b && valListBeq as bs
  | _, _ => false
end

/-- Go `==` on `TagInfo` values (map-key equality). -/
def tagInfoBeq (a b : TagInfo) : Bool :=
  a.source == b.source && a.tag == b.tag && a.nspace == b.nspace &&
    valBeq a.value b.value

/-! ## EXIF value decoding (metadecoder_exif.go) -/

/-- `exifTypeSize`: bytes per element of each TIFF type code; `none`
models a missing map entry. -/
def exifTypeSize (t : Nat) : Option Nat :=
  if t = 1 ∨ t = 2 ∨ t = 6 ∨ t = 7 then some 1
  else if t = 3 ∨ t = 8 then some 2
  else if t = 4 ∨ t = 9 ∨ t = 11 then some 4
  else if t = 5 ∨ t = 10 ∨ t = 12 then some 8
  else none

/-- `exifIFDPointers`: the dedicated IFD-pointer tag IDs and the names
recorded in the visited set (the value for 0x8769 is spelled
"ExifIFDP" in the source). -/
def exifIFDPointers (t : Nat) : Option String :=
  if t = 0x8769 then some "ExifIFDP"
  else if t = 0x8825 then some "GPSInfoIFD"
  else if t = 0xa005 then some "InteroperabilityIFD"
  else none

/-- The three pointed-to IFD kinds that can appear in the visited set
(the range of `exifIFDPointers`). -/
def ifdKinds : List String := ["ExifIFDP", "GPSInfoIFD", "InteroperabilityIFD"]

/-- How many pointer kinds are not yet in the visited set. -/
def unseenCount (g : Glob) : Nat :=
  (ifdKinds.filter fun k => ¬ k ∈ g.seenIFDs).length

/-- The descent-fuel invariant: strictly more remaining fuel than
unseen pointer kinds. Each descent is gated by inserting an unseen
kind, so the invariant is re-established one level deeper. -/
def condU (n : Nat) (g : Glob) : Prop := unseenCount g < n

/-- Lowercase hex of a number (Go `%x`). -/
def hexStr (n : Nat) : String := String.mk (Nat.toDigits 16 n)

/-- IEEE-754 single: NaN or ±Inf (exponent all ones). -/
def f32IsNaNOrInf (bits : Nat) : Bool := (bits >>> 23) &&& 0xff == 0xff

/-- IEEE-754 double: NaN or ±Inf (exponent all ones). -/
def f64IsNaNOrInf (bits : Nat) : Bool := (bits >>> 52) &&& 0x7ff == 0x7ff

/-- `doConvertValue`: decode one element of the given TIFF type from
`r`. A zero denominator yields `undef` for the unsigned rational but
reaches `NewRat` (which errors, producing a warning and `0`) for the
signed rational. -/
def doConvertValue (typ : Nat) (r : Rdr) : M (Val × Rdr) :=
  if typ = 1 ∨ typ = 7 ∨ typ = 2 ∨ typ = 6 then do
    let (b, r') ← read1r r
    pure (.u8 b, r')
  else if typ = 3 ∨ typ = 8 then do
    let (v, r') ← read2r r
    pure (.u16 v, r')
  else if typ = 4 then do
    let (v, r') ← read4r r
    pure (.u32 v, r')
  else if typ = 5 then do
    let (n, r1) ← read4r r
    let (d, r2) ← read4r r1
    if d = 0 then pure (undefV, r2)
    else
      match NewRatUInt32 n d with
      | some p => pure (.urat p.1 p.2, r2)
      | none => do
          warn
          pure (.int 0, r2)
  else if typ = 9 then do
    let (v, r') ← read4sr r
    pure (.i32 v, r')
  else if typ = 10 then do
    let (n, r1) ← read4sr r
    let (d, r2) ← read4sr r1
    match NewRatInt32 n d with
    | some p => pure (.irat p.1 p.2, r2)
    | none => do
        warn
        pure (.int 0, r2)
  else if typ = 11 then do
    let (v, r') ← read4r r
    pure (.f32 v, r')
  else if typ = 12 then do
    let (v, r') ← read8r r
    pure (.f64 v, r')
  else pure (.goErr (.invalidFormat (.errorMsg "unknown EXIF type")), r)

/-- `convertValue`: `doConvertValue` plus the NaN/±Inf-to-`undef`
normalization for floats. -/
def convertValue (typ : Nat) (r : Rdr) : M (Val × Rdr) := do
  let (v, r') ← doConvertValue typ r
  match v with
  | .f64 bits => pure (if f64IsNaNOrInf bits then undefV else v, r')
  | .f32 bits => pure (if f32IsNaNOrInf bits then undefV else v, r')
  | _ => pure (v, r')

/-- The element loop of `convertValues`. -/
def convertValuesLoop (typ : Nat) : Nat → Rdr → M (List Val × Rdr)
  | 0, r => pure ([], r)
  | k + 1, r => do
      let (v, r') ← convertValue typ r
      let (vs, r'') ← convertValuesLoop typ k r'
      pure (v :: vs, r'')

/-- Is a value a Go `byte`? (`_, ok := v.(byte)`). -/
def isByteVal : Val → Bool
  | .u8 _ => true
  | _ => false

/-- The byte payload of a `byte` value (total; used under `isByteVal`). -/
def byteValOf : Val → Nat
  | .u8 n => n
  | _ => 0

/-- `convertValues`: ASCII values become null-trimmed strings; a
single element is the element itself; multiple elements become a list,
collapsed to a byte slice when every element is a byte. -/
def convertValues (typ count len : Nat) (r : Rdr) : M (Val × Rdr) :=
  if count = 0 then pure (.vnil, r)
  else if typ = 2 then do
    let (b, r') ← readBytesFromRVolatile len r
    pure (.str (trimBytesNulls (b.take count)), r')
  else if count = 1 then convertValue typ r
  else do
    let (values, r') ← convertValuesLoop typ count r
    if values.all isByteVal then pure (.bytes (values.map byteValOf), r')
    else pure (.list values, r')

/-! ## The IPTC records decoder (part_000)

The decoder runs on its own big-endian stream reader over materialized
bytes, accumulating repeatable fields in a map keyed by `TagInfo`
(value field nil) and flushing it after the record loop. -/

/-- The accumulation map `stringSlices : map[TagInfo][]string`,
insertion-ordered; Go iterates it in a randomized order, supplied
separately. -/
abbrev SlicesMap : Type := List (TagInfo × List (List Nat))

/-- `stringSlices[ti] = append(stringSlices[ti], v)`. -/
def slicesAppend (m : SlicesMap) (k : TagInfo) (v : List Nat) : SlicesMap :=
  if (m.filter fun p => tagInfoBeq p.1 k).isEmpty then m ++ [(k, [v])]
  else m.map fun p => if tagInfoBeq p.1 k then (p.1, p.2 ++ [v]) else p

/-- Every key of the accumulation map satisfies the source predicate
(the IPTC decoder only ever inserts IPTC-sourced keys). -/
def mapInv (P : Nat → Prop) (m : SlicesMap) : Prop := ∀ p ∈ m, P p.1.source

/-- The Go string `"ISO-8859-1"` as bytes. -/
def iso88591Bytes : List Nat := [73, 83, 79, 45, 56, 56, 53, 57, 45, 49]

/-- The record definition looked up (or synthesized for an unknown
dataset) at the top of `decodeRecord`. -/
def iptcRecordDef (c : Ctx) (recordType datasetNumber : Nat) : IptcField :=
  match c.ora.iptcFields recordType datasetNumber with
  | some f => f
  | none =>
      { name := "UnknownTag_" ++ toString datasetNumber,
        recordName := "IPTCUnknownRecord",
        format := "string", repeatable := false }

/-- The `TagInfo` built for one IPTC record (value filled later). -/
def iptcTagInfo (c : Ctx) (recordType datasetNumber : Nat) : TagInfo :=
  { source := IPTC, tag := (iptcRecordDef c recordType datasetNumber).name,
    nspace := (iptcRecordDef c recordType datasetNumber).recordName,
    value := .vnil }

/-- The per-name converter application inside `decodeRecord`. -/
def iptcConvApply (c : Ctx) (name : String) (v : Val) : Val :=
  match c.ora.iptcConv name with
  | some conv => conv v
  | none => v

/-- The byte-slice-to-trimmed-string normalization inside
`decodeRecord`. -/
def iptcNormalizeVal (c : Ctx) (v : Val) : Val :=
  match v with
  | .bytes b => Val.str (c.ora.trimSpace (trimBytesNulls b))
  | other => other

/-- The format-directed value read inside `decodeRecord` (the
`switch recordDef.format` of the source). -/
def iptcReadValue (c : Ctx) (recordType datasetNumber recordSize : Nat)
    (charset : List Nat) : M Val :=
  if (iptcRecordDef c recordType datasetNumber).format = "string" then do
    let b ← readBytesVolatile recordSize
    if charset = [] ∨ charset = iso88591Bytes then
      pure (Val.bytes (c.ora.latin1 b))
    else pure (Val.bytes b)
  else if (iptcRecordDef c recordType datasetNumber).format = "uint32" then do
    pure (Val.u32 (← read4))
  else if (iptcRecordDef c recordType datasetNumber).format = "short" then do
    pure (Val.u16 (← read2))
  else if (iptcRecordDef c recordType datasetNumber).format = "byte" then do
    pure (Val.u8 (← read1))
  else mPanic (.errorMsg "unsupported format")

/-- The record 1 / dataset 90 character-set update inside
`decodeRecord` (the value is asserted to be a string). -/
def iptcUpdateCharset (c : Ctx) (recordType datasetNumber : Nat) (v : Val)
    (charset : List Nat) : M (List Nat) :=
  if recordType = 1 ∧ datasetNumber = 90 then
    match iptcConvApply c (iptcRecordDef c recordType datasetNumber).name v with
    | .str s => pure s
    | _ => mPanic (.runtimeError "interface conversion: not string")
  else pure charset

/-- `decodeRecord` (part_000 lines 253-321): one IPTC record; returns
the updated character set and accumulation map. The source's local
`recordDef`/`ti`/rebound `v` lets are named by the helper definitions
above and inlined (they are pure). -/
def decodeRecord (c : Ctx) (charset : List Nat) (m : SlicesMap) :
    M (List Nat × SlicesMap) := do
  let recordType ← read1
  let datasetNumber ← read1
  let recordSize ← read2
  -- `recordSize > uint16(e.opts.LimitTagSize) || !e.opts.ShouldHandleTag(ti)`
  if recordSize > c.opts.limitTagSize % 2 ^ 16 then do
    skip recordSize
    pure (charset, m)
  else do
    let ok ← shouldHandleTagW c (iptcTagInfo c recordType datasetNumber)
    if ¬ ok then do
      skip recordSize
      pure (charset, m)
    else do
      let v ← iptcReadValue c recordType datasetNumber recordSize charset
      let charset' ← iptcUpdateCharset c recordType datasetNumber v charset
      if (iptcRecordDef c recordType datasetNumber).repeatable then
        pure (charset', slicesAppend m (iptcTagInfo c recordType datasetNumber)
          (goToString c.ora (iptcNormalizeVal c
            (iptcConvApply c (iptcRecordDef c recordType datasetNumber).name v))))
      else do
        match ← handleTagW c { iptcTagInfo c recordType datasetNumber with
            value := iptcNormalizeVal c
              (iptcConvApply c (iptcRecordDef c recordType datasetNumber).name v) } with
        | some er => mErr er
        | none => pure (charset', m)

/-- The marker loop of `decodeRecords`: `binary.Read` one byte straight
from the reader (EOF breaks), `0x1C` begins a record, anything else
ends decoding. The fuel is the byte count of the stream plus one, which
the strictly advancing position cannot exhaust; exhaustion behaves like
the loop break. -/
def iptcRecordsLoop (c : Ctx) : Nat → List Nat → SlicesMap → M SlicesMap
  | 0, _, m => pure m
  | f + 1, charset, m => do
      let s ← getSR
      if s.pos < 0 ∨ s.data.length ≤ s.pos.toNat then pure m
      else do
        let marker := byteAt s.data s.pos.toNat
        modifySR fun s => { s with pos := s.pos + 1 }
        if marker ≠ 0x1C then pure m
        else do
          let (charset', m') ← decodeRecord c charset m
          iptcRecordsLoop c f charset' m'

/-- The value flushed for one accumulated entry: the single string for
a singleton list, else the whole slice. -/
def flushVal (values : List (List Nat)) : Val :=
  if values.length = 0 ∨ values.length > 1 then .list (values.map .str)
  else .str (values.headD [])

/-- The flush loop inside `handlestringSlices`: one `HandleTag` per
accumulated entry, a single value for singleton lists. -/
def flushLoop (c : Ctx) : SlicesMap → M Unit
  | [] => pure ()
  | (ti, values) :: rest => do
      match ← handleTagW c { ti with value := flushVal values } with
      | some er => mErr er
      | none => flushLoop c rest

/-- `handlestringSlices` (part_000 lines 169-184): flush the
accumulated repeatable fields, iterating the map in the (randomized)
order `c.mapOrd`. -/
def handlestringSlices (c : Ctx) (m : SlicesMap) : M Unit := do
  if m.isEmpty then pure ()
  else flushLoop c (c.mapOrd m)

/-- `decodeRecords` body, on the IPTC decoder's own stream reader. -/
def decodeRecordsBody (c : Ctx) : M Unit := do
  let s ← getSR
  let m ← iptcRecordsLoop c (s.data.length + 1) [] []
  handlestringSlices c m

/-- `newMetaDecoderIPTC(r, opts).decodeRecords()` over materialized
bytes: a fresh big-endian stream reader. -/
def decodeRecords (c : Ctx) (data : List Nat) : M Unit :=
  runSub data (decodeRecordsBody c)

/-! ## The XMP decoder (part_003) -/

/-- `xmpSkipNamespaces`. -/
def xmpSkipNamespace (s : String) : Bool :=
  s = "xmlns" ∨ s = "http://www.w3.org/1999/02/22-rdf-syntax-ns#" ∨
    s = "http://purl.org/dc/elements/1.1/"

/-- The attribute loop of `decodeXMP`. -/
def xmpAttrLoop (c : Ctx) : List XmpAttr → M Unit
  | [] => pure ()
  | a :: rest => do
      if xmpSkipNamespace a.space then xmpAttrLoop c rest
      else do
        let ti : TagInfo :=
          { source := XMP, tag := a.localName, nspace := a.space,
            value := .str a.value }
        let ok ← shouldHandleTagW c ti
        if ¬ ok then xmpAttrLoop c rest
        else
          match ← handleTagW c ti with
          | some er => mErr er
          | none => xmpAttrLoop c rest

/-- `decodeXMP`: the user raw handler (with the end-of-stream check)
when supplied, else the XML parse and attribute loop. -/
def decodeXMP (c : Ctx) (data : List Nat) : M Unit := do
  match c.opts.handleXMP with
  | some h =>
      let (e, consumed) := h data
      match e with
      | some er => mErr er
      | none =>
          if consumed < data.length then mErr (.errorMsg "expected EOF after XMP")
          else pure ()
  | none =>
      match c.ora.xmpParse data with
      | none => mErr (.invalidFormat (.errorMsg "decoding XMP"))
      | some attrs => xmpAttrLoop c attrs

/-! ## The EXIF IFD decoder (metadecoder_exif.go)

The decoder is mutually recursive through the IFD-pointer descent
(`decodeTag → decodeTagsAt → decodeTags → decodeTag`). The embedding
stratifies that recursion: each function takes the descent continuation
`below` (what `decodeTagsAt` does one level deeper), and `atLevel`
ties the knot with a structural fuel. The visited-IFD set bounds the
real recursion depth by the three pointer kinds; the C6 theorem shows
fuel 4 is never exhausted, so the fueled embedding coincides with the
source on every input. -/

/-- `path.Join` as used for IFD namespaces (both arguments are
slash-free non-dotted names here, where `path.Join` is plain
concatenation with a slash). -/
def goPathJoin (a b : String) : String :=
  if a = "" then b else if b = "" then a else a ++ "/" ++ b

/-- `strings.Contains(s, " ")`, over the character data. -/
def strHasSpace (s : String) : Bool := s.data.any fun ch => ch == ' '

/-- The head of `strings.Split(s, " ")`: the characters before the
first space. -/
def strFirstField (s : String) : String :=
  String.mk (s.data.takeWhile fun ch => ¬ ch == ' ')

/-- The XMP-marker branch of `decodeTag` (source lines 351-361): jump
to the pointed-to payload and decode it as XMP, restoring the
position. -/
def exifDecodeXMPAt (c : Ctx) (valLen : Nat) : M Unit := do
  let valueOffset ← read4
  preservePos (do
    let s ← getSR
    let offset : Nat := (valueOffset + u32OfInt s.readerOffset) % 2 ^ 32
    seek (offset : Int)
    let sub ← bufferedReader (valLen : Int)
    decodeXMP c sub.data)

/-- The IPTC-marker branch of `decodeTag` (source lines 370-381): jump
to the pointed-to payload and decode its records, restoring the
position. -/
def exifDecodeIPTCAt (c : Ctx) (valLen : Nat) : M Unit := do
  let valueOffset ← read4
  preservePos (do
    let s ← getSR
    let offset : Nat := (valueOffset + u32OfInt s.readerOffset) % 2 ^ 32
    seek (offset : Int)
    let sub ← bufferedReader (valLen : Int)
    decodeRecords c sub.data)

/-- The value-reading closure of `decodeTag` (source lines 404-431):
an over-4-byte value is read through a buffered sub-reader at the
pointed-to offset with the position restored; a small value is read in
place and its 4-byte slot padding skipped. -/
def exifReadVal (c : Ctx) (dataType count valLen : Nat) : M Val :=
  if valLen > 4 then do
    let valueOffset ← read4
    preservePos (do
      let s ← getSR
      let offset : Nat := (valueOffset + u32OfInt s.readerOffset) % 2 ^ 32
      seek (offset : Int)
      let sub ← bufferedReader (valLen : Int)
      let (v, _) ← convertValues dataType count valLen (.sub sub)
      pure v)
  else do
    let (v, _) ← convertValues dataType count valLen .main
    if 4 - valLen > 0 then skip ((4 - valLen : Nat) : Int)
    pure v

/-- The value-converter application of `decodeTag` (source lines
442-450): the per-tag converter with the NaN/Inf-to-`undef` guard, or
the printable-value fallback. -/
def exifConvertVal (c : Ctx) (tagName : String) (val : Val) : Val :=
  match c.ora.exifConv tagName with
  | some conv =>
      match conv val with
      | .f64 bits => if f64IsNaNOrInf bits then undefV else .f64 bits
      | v => v
  | none => toPrintableValue c.ora val

/-- `if val == nil { val = "" }` (source lines 452-454). -/
def exifOrEmpty (val : Val) : Val :=
  match val with
  | .vnil => Val.str []
  | v => v

/-- The `ThumbnailOffset` adjustment (source lines 456-459): the value
is asserted to be a `uint32` and rebased on the TIFF origin plus the
thumbnail offset. -/
def exifThumbAdjust (c : Ctx) (tagName : String) (val : Val) : M Val :=
  if tagName = "ThumbnailOffset" then
    match val with
    | .u32 v => do
        let s ← getSR
        pure (Val.u32 ((v + u32OfInt (s.readerOffset + c.thumbnailOffset)) % 2 ^ 32))
    | _ => mPanic (.runtimeError "interface conversion: not uint32")
  else pure val

/-- The part of `decodeTag` after the tag-ID/type/count header, the
unknown-tag naming and the pointer/visited-set step (source lines
337-467): sizes, the embedded XMP/IPTC sources, the source and size
guards, the value read, pointer descent or value conversion and
delivery. The source's local lets are named by the helper definitions
above. -/
def decodeTagBodyW (c : Ctx) (below : String → Int → M Unit) (ns : String)
    (tagID dataType count : Nat) (tagName : String) (ifdPtr : Option String) :
    M Unit := do
  match exifTypeSize dataType with
  | none => mErr (.invalidFormatMsg "unknown EXIF type")
  | some size => do
    if tagID = 0x2bc then
      if ¬ sourceHas c.opts.sources XMP then skip 4
      else exifDecodeXMPAt c (size * count)
    else if tagID = 0x83bb then
      if ¬ sourceHas c.opts.sources IPTC then skip 4
      else exifDecodeIPTCAt c (size * count)
    else if ¬ sourceHas c.opts.sources EXIF ∨ size * count > c.opts.limitTagSize then
      skip 4
    else do
      let proceed ←
        if ifdPtr.isNone then
          shouldHandleTagW c
            { source := EXIF, tag := tagName, nspace := ns, value := .vnil }
        else pure true
      if ¬ proceed then skip 4
      else do
        let val ← exifReadVal c dataType count (size * count)
        match ifdPtr with
        | some ifd =>
            match val with
            | .u32 offset => below (goPathJoin ns ifd) (offset : Int)
            | _ => mErr (.invalidFormatMsg "invalid IFD pointer value")
        | none => do
            let val2 ← exifThumbAdjust c tagName
              (exifOrEmpty (exifConvertVal c tagName val))
            match ← handleTagW c
                { source := EXIF, tag := tagName, nspace := ns, value := val2 } with
            | some er => mErr er
            | none => pure ()

/-- `decodeTag` (source lines 308-336 plus the body): the 12-byte entry
header, the over-large-count guard, tag naming, and the visited-IFD
check — note the already-visited branch returns without consuming the
4-byte value slot. -/
def decodeTagW (c : Ctx) (below : String → Int → M Unit) (ns : String) : M Unit := do
  let tagID ← read2
  let dataType ← read2
  let count ← read4
  if count > 0x10000 then skip 4
  else do
    let tagName :=
      let t0 := (c.ora.exifFields tagID).getD ""
      let t1 := if t0 = "" then "UnknownTag_0x" ++ hexStr tagID else t0
      if strHasSpace t1 then strFirstField t1 else t1
    match exifIFDPointers tagID with
    | some ifd => do
        let g ← getGlob
        if ifd ∈ g.seenIFDs then pure ()
        else do
          modifyGlob fun g =>
            { g with seenIFDs := g.seenIFDs ++ [ifd],
                     events := g.events ++ [.enterIFD ifd] }
          decodeTagBodyW c below ns tagID dataType count tagName (some ifd)
    | none => decodeTagBodyW c below ns tagID dataType count tagName none

/-- The entry loop of `decodeTags`. -/
def decodeTagsLoopW (c : Ctx) (below : String → Int → M Unit) (ns : String) :
    Nat → M Unit
  | 0 => pure ()
  | k + 1 => do
      decodeTagW c below ns
      decodeTagsLoopW c below ns k

/-- `decodeTags`: read the 16-bit entry count, then that many entries. -/
def decodeTagsW (c : Ctx) (below : String → Int → M Unit) (ns : String) : M Unit := do
  let numTags ← read2
  decodeTagsLoopW c below ns numTags

/-- `decodeTagsAt`: decode an IFD at `offset` (relative to the TIFF
origin), restoring the position afterwards. -/
def decodeTagsAtW (c : Ctx) (below : String → Int → M Unit) (ns : String)
    (offset : Int) : M Unit :=
  preservePos (do
    let s ← getSR
    seek (offset + s.readerOffset)
    decodeTagsW c below ns)

/-- The descent continuation at a given remaining depth: depth 0 is the
embedding's fuel sentinel (unreachable from the real entry points, see
C6). -/
def atLevel (c : Ctx) : Nat → String → Int → M Unit
  | 0 => fun _ _ => mPanic .fuelExhausted
  | f + 1 => decodeTagsAtW c (atLevel c f)

/-- `decodeTag` at a given descent fuel. -/
def decodeTag (c : Ctx) (fuel : Nat) (ns : String) : M Unit :=
  decodeTagW c (atLevel c fuel) ns

/-- `decodeTags` at a given descent fuel. -/
def decodeTags (c : Ctx) (fuel : Nat) (ns : String) : M Unit :=
  decodeTagsW c (atLevel c fuel) ns

/-- `metaDecoderEXIF.decode` (source lines 259-300): record the TIFF
origin, parse the byte-order mark and IFD0 offset, decode IFD0, then
follow the chain offset to the thumbnail IFD1. -/
def exifDecode (c : Ctx) (fuel : Nat) : M Unit := do
  modifySR fun s => { s with readerOffset := s.pos }
  let byteOrderTag ← read2
  if byteOrderTag = 0x4d4d ∨ byteOrderTag = 0x4949 then do
    modifySR fun s => { s with bo := byteOrderTag = 0x4d4d }
    skip 2
    let ifd0Offset ← read4
    if ifd0Offset < 8 then pure ()
    else do
      skip ((ifd0Offset : Int) - 8)
      decodeTags c fuel "IFD0"
      let ifd1Offset ← read4
      if ifd1Offset = 0 then pure ()
      else do
        let s ← getSR
        seek ((ifd1Offset : Int) + s.readerOffset)
        decodeTags c fuel "IFD1"
  else pure ()

/-! ## The top-level `Decode` (part_005)

Error normalization (`errFinal`, lines 74-102), panic recovery
(`errFromRecover`, lines 108-130), option defaulting and the per-format
source mask (lines 132-206), and the TIFF walker entry
(imagedecoder_tif.go). -/

/-- Byte-wise prefix test on character lists. -/
def charsPrefix : List Char → List Char → Bool
  | [], _ => true
  | _ :: _, [] => false
  | a :: as, b :: bs => a == b && charsPrefix as bs

/-- `strings.Contains` on character lists. -/
def charsContains (needle : List Char) : List Char → Bool
  | [] => charsPrefix needle []
  | c :: rest => charsPrefix needle (c :: rest) || charsContains needle rest

/-- `isInvalidFormatErrorCandidate`: does the error text contain
"unexpected EOF"? Computed structurally over the error shapes (the
fixed messages of the embedded errors contain it only for
`io.ErrUnexpectedEOF`; wrapping prepends "invalid format: "). -/
def containsUnexpectedEOF : GoError → Bool
  | .unexpectedEOF => true
  | .invalidFormat inner => containsUnexpectedEOF inner
  | .invalidFormatMsg m => charsContains "unexpected EOF".data m.data
  | .runtimeError m => charsContains "unexpected EOF".data m.data
  | .errorMsg m => charsContains "unexpected EOF".data m.data
  | .userErr _ ueof => ueof
  | _ => false

/-- A recovered panic value: an error, or any non-error value. -/
inductive PanicVal where
  | errVal (e : GoError)
  | nonError

/-- `errFromRecover` (part_005 lines 108-123). -/
def errFromRecover : Option PanicVal → Option GoError
  | none => none
  | some (.errVal e) =>
      some (if containsUnexpectedEOF e then .invalidFormat e else e)
  | some .nonError => some (.errorMsg "unknown panic")

/-- `errFinal` (part_005 lines 74-102): consult the stream error when
nil, drop the sentinels and EOF, wrap "unexpected EOF" candidates. -/
def errFinal (streamErr : Option GoError) (e : Option GoError) : Option GoError :=
  let e2 := match e with
    | none => streamErr
    | some x => some x
  match e2 with
  | none => none
  | some .stopWalking => none
  | some .stop => none
  | some .eof => none
  | some er => if containsUnexpectedEOF er then some (.invalidFormat er) else some er

/-- The CONFIG pre-scan loop of `imageDecoderTIF.decode`: ImageWidth /
ImageHeight as SHORT or LONG, stopping once both are positive. -/
def tifConfigLoop : Nat → Nat → Nat → M (Nat × Nat)
  | 0, w, h => pure (w, h)
  | k + 1, w, h => do
      let tagID ← read2
      let dataType ← read2
      let _count ← read4
      if tagID = 0x100 ∨ tagID = 0x101 then do
        let value ←
          if dataType = 3 then do
            let v ← read2
            skip 2
            pure v
          else read4
        let w' := if tagID = 0x100 then value else w
        let h' := if tagID = 0x101 then value else h
        if w' > 0 ∧ h' > 0 then pure (w', h')
        else tifConfigLoop k w' h'
      else do
        skip 4
        tifConfigLoop k w h

/-- `imageDecoderTIF.decode`: byte-order mark, magic 42, IFD0 offset,
optional CONFIG pre-scan, then the EXIF IFD decoder rooted at "IFD0"
(on the same stream reader, thumbnail offset 0). -/
def tifDecode (c : Ctx) (fuel : Nat) : M Unit := do
  let byteOrderTag ← read2
  if byteOrderTag = 0x4d4d ∨ byteOrderTag = 0x4949 then do
    modifySR fun s => { s with bo := byteOrderTag = 0x4d4d }
    let id ← read2
    if id ≠ 42 then mErr (.invalidFormat (.errorMsg "invalid format"))
    else do
      let ifdOffset ← read4
      if ifdOffset < 8 then mErr (.invalidFormat (.errorMsg "invalid format"))
      else do
        skip ((ifdOffset : Int) - 8)
        if sourceHas c.opts.sources CONFIG then do
          let ifdPos ← getPos
          let numTags ← read2
          let (w, h) ← tifConfigLoop numTags 0 0
          modifyGlob fun g => { g with config := some (w, h) }
          if c.opts.sources = CONFIG then pure ()
          else do
            seek ifdPos
            decodeTags c fuel "IFD0"
        else decodeTags c fuel "IFD0"
  else mErr (.invalidFormat (.errorMsg "invalid format"))

/-- The caller-supplied options `Decode` receives (the modelled
fields), before defaulting. -/
structure UserOpts where
  sources : Nat
  shouldHandleTag : Option (TagInfo → Bool)
  handleTag : Option (TagInfo → Option GoError)
  handleXMP : Option (List Nat → Option GoError × Nat)
  limitNumTags : Nat
  limitTagSize : Nat

/-- The default `ShouldHandleTag`: accept every non-EXIF tag; accept an
EXIF tag only when its namespace begins with "IFD0" (prefix test over
the character data). -/
def defaultShouldHandleTag (ti : TagInfo) : Bool :=
  if ti.source ≠ EXIF then true else charsPrefix "IFD0".data ti.nspace.data

/-- The effective options after `Decode`'s defaulting, for the given
per-format allowed mask already intersected. -/
def effectiveOpts (uo : UserOpts) (sourceSet : Nat) : Opts :=
  { sources := sourceSet
    shouldHandleTag := uo.shouldHandleTag.getD defaultShouldHandleTag
    handleTag := uo.handleTag.getD fun _ => none
    handleXMP := uo.handleXMP
    limitNumTags := if uo.limitNumTags = 0 then 5000 else uo.limitNumTags
    limitTagSize := if uo.limitTagSize = 0 then 10000 else uo.limitTagSize }

/-- The effective source mask for the TIFF format: the per-format
allowed set `EXIF|XMP|IPTC|CONFIG` intersected with the (defaulted)
caller mask. -/
def tiffSourceSet (uoSources : Nat) : Nat :=
  (EXIF ||| XMP ||| IPTC ||| CONFIG) &&&
    (if uoSources = 0 then EXIF ||| IPTC ||| XMP else uoSources)

/-- The decoder context `Decode` assembles for a TIFF input. -/
def tiffCtx (ora : Ora) (uo : UserOpts) (mapOrd : SlicesMap → SlicesMap) :
    Ctx :=
  { ora := ora, opts := effectiveOpts uo (tiffSourceSet uo.sources),
    thumbnailOffset := 0, mapOrd := mapOrd }

/-- The raw error of one run outcome, after the deferred recover
(part_005 lines 104-130): a returned error is kept; a panic value is
recovered and converted. -/
def errRawOf : Res Unit → Option GoError
  | .ok _ => none
  | .err e => some e
  | .panic e => errFromRecover (some (.errVal e))

/-- `Decode` for the TIFF image format: option defaulting, the source
mask with its immediate-success short cut, the walker run (fuel 4 for
the IFD pointer descent, shown sufficient by C6), and the deferred
panic-recovery and error normalization. Returns the final global state
(trace, config) and the returned error. -/
def decodeTIFF (ora : Ora) (uo : UserOpts)
    (mapOrd : SlicesMap → SlicesMap) (data : List Nat) :
    Glob × Option GoError :=
  if tiffSourceSet uo.sources = 0 then (Glob.mk0, none)
  else
    let out := tifDecode (tiffCtx ora uo mapOrd) 4 (SR.mk0 data true) Glob.mk0
    (out.2.1, errFinal out.1.readErr (errRawOf out.2.2))

/-- A trivial oracle instance (empty tables, identity transcoders) for
concrete evaluation. -/
def oraTriv : Ora :=
  { exifFields := fun _ => none
    exifConv := fun _ => none
    iptcFields := fun _ _ => none
    iptcConv := fun _ => none
    latin1 := fun b => b
    trimSpace := fun b => b
    printable := fun b => b
    formatV := fun _ => []
    xmpParse := fun _ => none }

/-- Caller options with every field defaulted, for concrete
evaluation. -/
def uo0 : UserOpts :=
  { sources := 0, shouldHandleTag := none, handleTag := none,
    handleXMP := none, limitNumTags := 0, limitTagSize := 0 }

/-- A concrete default context for concrete evaluation. -/
def cTriv : Ctx := tiffCtx oraTriv uo0 id

/-- Caller options selecting EXIF only with a tag limit of one and a
declining `ShouldHandleTag`, for concrete evaluation of the limit
behavior. -/
def uoW : UserOpts :=
  { sources := 1, shouldHandleTag := some fun _ => false, handleTag := none,
    handleXMP := none, limitNumTags := 1, limitTagSize := 0 }

/-- An oracle with a constant tag-name table, for cheap concrete
evaluation. -/
def oraW : Ora := { oraTriv with exifFields := fun _ => some "T" }

/-- A little-endian-free big-endian TIFF: header, one IFD with two
SHORT entries (tags 0x100 and 0x101), enough to drive the tag counter
past a limit of one. -/
def dataW : List Nat :=
  [0x4d, 0x4d, 0x00, 0x2a, 0x00, 0x00, 0x00, 0x08,
   0x00, 0x02,
   0x01, 0x00, 0x00, 0x03, 0x00, 0x00, 0x00, 0x01, 0x00, 0x05, 0x00, 0x00,
   0x01, 0x01, 0x00, 0x03, 0x00, 0x00, 0x00, 0x01]

/-- The default context with the map iteration order reversed — a
second run of the same decode under Go's randomized map iteration. -/
def cRev : Ctx := { cTriv with mapOrd := List.reverse }

/-- Two accumulated repeatable IPTC fields, keys `A` and `B`. -/
def m7 : SlicesMap :=
  [({ source := IPTC, tag := "A", nspace := "R", value := .vnil }, [[65]]),
   ({ source := IPTC, tag := "B", nspace := "R", value := .vnil }, [[66]])]

/-- One 12-byte IFD entry whose tag is the ExifIFD pointer (big
endian): tag 0x8769, type 4, count 1, value slot 0. -/
def dataC5 : List Nat :=
  [0x87, 0x69, 0x00, 0x04, 0x00, 0x00, 0x00, 0x01, 0x00, 0x00, 0x00, 0x00]

/-- Eight bytes encoding the signed rational 1/0 (big endian). -/
def dataC3 : List Nat := [0, 0, 0, 1, 0, 0, 0, 0]

/-! ## The RAW (TIFF-based) image decoder (imagedecoder_raw.go)

The CONFIG pre-scan of `imageDecoderRAW.decode`: IFD0 scan, the
ExifIFD and SubIFD follows, and the dimension selection. -/

/-- `readDefaultCropSize` (lines 173-210): SHORT×2 inline; LONG×2 and
RATIONAL×2 behind an offset with the position restored; rationals with
a zero denominator leave the corresponding dimension zero; anything
else skips the value slot and reports absence. -/
def readDefaultCropSize (dataType count : Nat) : M (Nat × Nat × Bool) :=
  if dataType = 4 ∧ count = 2 then do
    let cropOffset ← read4
    preservePos (do
      seek (cropOffset : Int)
      let w ← read4
      let h ← read4
      pure (w, h, true))
  else if dataType = 3 ∧ count = 2 then do
    let w ← read2
    let h ← read2
    pure (w, h, true)
  else if dataType = 5 ∧ count = 2 then do
    let cropOffset ← read4
    preservePos (do
      seek (cropOffset : Int)
      let num1 ← read4
      let den1 ← read4
      let num2 ← read4
      let den2 ← read4
      pure ((if den1 > 0 then num1 / den1 else 0),
        (if den2 > 0 then num2 / den2 else 0), true))
  else do
    skip 4
    pure (0, 0, false)

/-- The entry loop of `readIFDDimensions` (lines 214-242): scan for
the two given tags, returning early once both are positive. -/
def readIFDDimensionsLoop (wTag hTag : Nat) : Nat → Nat → Nat → M (Nat × Nat)
  | 0, w, h => pure (w, h)
  | k + 1, w, h => do
      let tagID ← read2
      let dataType ← read2
      let _count ← read4
      if tagID = wTag ∨ tagID = hTag then do
        let value ←
          if dataType = 3 then do
            let v ← read2
            skip 2
            pure v
          else read4
        let w' := if tagID = wTag then value else w
        let h' := if tagID = wTag then h else value
        if w' > 0 ∧ h' > 0 then pure (w', h')
        else readIFDDimensionsLoop wTag hTag k w' h'
      else do
        skip 4
        readIFDDimensionsLoop wTag hTag k w h

/-- `readIFDDimensions`. -/
def readIFDDimensions (wTag hTag : Nat) : M (Nat × Nat) := do
  let numTags ← read2
  readIFDDimensionsLoop wTag hTag numTags 0 0

/-- The entry loop of `readSubIFDInfo` (lines 247-278): width, height
and DefaultCropSize of one SubIFD. -/
def readSubIFDInfoLoop : Nat → Nat × Nat × Nat × Nat → M (Nat × Nat × Nat × Nat)
  | 0, acc => pure acc
  | k + 1, acc => do
      let tagID ← read2
      let dataType ← read2
      let count ← read4
      if tagID = 0x100 ∨ tagID = 0x101 then do
        let value ←
          if dataType = 3 then do
            let v ← read2
            skip 2
            pure v
          else read4
        readSubIFDInfoLoop k
          (if tagID = 0x100 then value else acc.1,
            if tagID = 0x100 then acc.2.1 else value, acc.2.2.1, acc.2.2.2)
      else if tagID = 0xc620 then do
        let r ← readDefaultCropSize dataType count
        readSubIFDInfoLoop k
          (acc.1, acc.2.1, if r.2.2 then r.1 else acc.2.2.1,
            if r.2.2 then r.2.1 else acc.2.2.2)
      else do
        skip 4
        readSubIFDInfoLoop k acc

/-- `readSubIFDInfo`. -/
def readSubIFDInfo : M (Nat × Nat × Nat × Nat) := do
  let numTags ← read2
  readSubIFDInfoLoop numTags (0, 0, 0, 0)

/-- The IFD0-scan accumulator of the CONFIG block (lines 49-53). -/
structure RawScan where
  width : Nat
  height : Nat
  exifIFDOffset : Nat
  subIFDOffsets : List Nat
  defaultCropW : Nat
  defaultCropH : Nat
  hasDefaultCrop : Bool

def RawScan.init : RawScan :=
  { width := 0, height := 0, exifIFDOffset := 0, subIFDOffsets := [],
    defaultCropW := 0, defaultCropH := 0, hasDefaultCrop := false }

/-- The SubIFD offset-array read (lines 83-89). -/
def rawSubOffsetsLoop : Nat → List Nat → M (List Nat)
  | 0, acc => pure acc
  | k + 1, acc => do
      let off ← read4
      rawSubOffsetsLoop k (acc ++ [off])

/-- The IFD0 entry loop of the CONFIG block (lines 56-100). -/
def rawScanLoop : Nat → RawScan → M RawScan
  | 0, st => pure st
  | k + 1, st => do
      let tagID ← read2
      let dataType ← read2
      let count ← read4
      if tagID = 0x100 ∨ tagID = 0x101 then do
        let value ←
          if dataType = 3 then do
            let v ← read2
            skip 2
            pure v
          else read4
        rawScanLoop k (if tagID = 0x100 then { st with width := value }
          else { st with height := value })
      else if tagID = 0x8769 then do
        let v ← read4
        rawScanLoop k { st with exifIFDOffset := v }
      else if tagID = 0x14a then
        if count = 1 then do
          let v ← read4
          rawScanLoop k { st with subIFDOffsets := st.subIFDOffsets ++ [v] }
        else do
          let arrayOffset ← read4
          let offs ← preservePos (do
            seek (arrayOffset : Int)
            rawSubOffsetsLoop count [])
          rawScanLoop k { st with subIFDOffsets := st.subIFDOffsets ++ offs }
      else if tagID = 0xc620 then do
        let r ← readDefaultCropSize dataType count
        if r.2.2 then
          rawScanLoop k { st with
            hasDefaultCrop := true,
            defaultCropW := r.1,
            defaultCropH := r.2.1 }
        else rawScanLoop k st
      else do
        skip 4
        rawScanLoop k st

/-- The SubIFD follow loop (lines 113-127): largest sub-dimensions and
the last positive SubIFD crop. -/
def rawSubsLoop : List Nat → Nat × Nat → Bool × Nat × Nat →
    M ((Nat × Nat) × (Bool × Nat × Nat))
  | [], dims, crop => pure (dims, crop)
  | off :: rest, dims, crop => do
      let r ← preservePos (do
        seek (off : Int)
        readSubIFDInfo)
      rawSubsLoop rest
        (if r.1 * r.2.1 > dims.1 * dims.2 then (r.1, r.2.1) else dims)
        (if r.2.2.1 > 0 ∧ r.2.2.2 > 0 then (true, r.2.2.1, r.2.2.2) else crop)

/-- The dimension selection (lines 129-139): largest area among IFD0,
ExifIFD and largest SubIFD; a crop overrides only when present and
both dimensions are positive. -/
def rawSelect (width height exifW exifH subW subH : Nat)
    (hasCrop : Bool) (cropW cropH : Nat) : Nat × Nat :=
  let best1 := if exifW * exifH > width * height then (exifW, exifH)
    else (width, height)
  let best2 := if subW * subH > best1.1 * best1.2 then (subW, subH) else best1
  if hasCrop = true ∧ cropW > 0 ∧ cropH > 0 then (cropW, cropH) else best2

/-- The ExifIFD follow of the CONFIG block (lines 104-110). -/
def rawExifDims (st : RawScan) : M (Nat × Nat) :=
  if st.exifIFDOffset > 0 then
    preservePos (do
      seek (st.exifIFDOffset : Int)
      readIFDDimensions 0xa002 0xa003)
  else pure (0, 0)

/-- The tail of `imageDecoderRAW.decode` (lines 154-167): the shared
EXIF tag walk over IFD0 and the IFD1 chain. -/
def rawDecodeTagsTail (c : Ctx) (fuel : Nat) : M Unit := do
  decodeTags c fuel "IFD0"
  let ifd1Offset ← read4
  if ifd1Offset > 0 then do
    seek (ifd1Offset : Int)
    decodeTags c fuel "IFD1"
  else pure ()

/-- `imageDecoderRAW.decode` (lines 23-168). -/
def rawDecode (c : Ctx) (fuel : Nat) : M Unit := do
  let byteOrderTag ← read2
  if byteOrderTag = 0x4d4d ∨ byteOrderTag = 0x4949 then do
    modifySR fun s => { s with bo := byteOrderTag = 0x4d4d }
    let id ← read2
    if id ≠ 42 then mErr (.invalidFormat (.errorMsg "invalid format"))
    else do
      let ifdOffset ← read4
      if ifdOffset < 8 then mErr (.invalidFormat (.errorMsg "invalid format"))
      else do
        skip ((ifdOffset : Int) - 8)
        if sourceHas c.opts.sources CONFIG then do
          let ifdPos ← getPos
          let numTags ← read2
          let st ← rawScanLoop numTags RawScan.init
          let exifDims ← rawExifDims st
          let subs ← rawSubsLoop st.subIFDOffsets (0, 0)
            (st.hasDefaultCrop, st.defaultCropW, st.defaultCropH)
          modifyGlob fun g =>
            { g with
              config := some (rawSelect st.width st.height exifDims.1
                exifDims.2 subs.1.1 subs.1.2 subs.2.1 subs.2.2.1
                subs.2.2.2) }
          if c.opts.sources = CONFIG then pure ()
          else do
            seek ifdPos
            rawDecodeTagsTail c fuel
        else rawDecodeTagsTail c fuel
  else mErr (.invalidFormat (.errorMsg "invalid format"))

/-! ## Invariant machinery

`GStep c P d g g'` relates the global state across any span of the
walk: the tag counter only grows, the visited-IFD set only grows, the
trace only extends — and the extension delivers only sources satisfying
`P`, delivers at most (completed counter increments below the limit)
`+ d` tags (`d` is the credit of an already-completed `ShouldHandleTag`
call), and marks each pointer kind at most once and only when unseen.
-/

theorem tagsOf_append (a b : List Event) :
    tagsOf (a ++ b) = tagsOf a ++ tagsOf b := by
  induction a with
  | nil => rfl
  | cons e rest ih =>
    cases e <;> simp [tagsOf, ih]

theorem countEnter_append (k : String) (a b : List Event) :
    countEnter k (a ++ b) = countEnter k a + countEnter k b := by
  induction a with
  | nil => simp [countEnter]
  | cons e rest ih =>
    cases e <;> simp [countEnter, ih] <;> omega

/-- One span of the walk, from global state `g` to `g'`, with source
predicate `P` and emission credit `d`. -/
structure GStep (c : Ctx) (P : Nat → Prop) (d : Nat) (g g' : Glob) : Prop where
  tcMono : g.tagCount ≤ g'.tagCount
  seenExt : ∃ ns, g'.seenIFDs = g.seenIFDs ++ ns
  evs : ∃ new, g'.events = g.events ++ new ∧
      (∀ ti ∈ tagsOf new, P ti.source) ∧
      (tagsOf new).length + min g.tagCount c.opts.limitNumTags ≤
        min g'.tagCount c.opts.limitNumTags + d ∧
      (∀ k, k ∈ g.seenIFDs → countEnter k new = 0) ∧
      (∀ k, countEnter k new ≤ 1) ∧
      (∀ k, 1 ≤ countEnter k new → k ∈ g'.seenIFDs)

theorem GStep.seen_mono {c : Ctx} {P : Nat → Prop} {d : Nat} {g g' : Glob}
    (h : GStep c P d g g') {k : String} (hk : k ∈ g.seenIFDs) :
    k ∈ g'.seenIFDs := by
  obtain ⟨ns, hns⟩ := h.seenExt
  rw [hns]
  exact List.mem_append_left _ hk

theorem GStep.refl (c : Ctx) (P : Nat → Prop) (d : Nat) (g : Glob) :
    GStep c P d g g := by
  refine ⟨le_refl _, ⟨[], by simp⟩, ⟨[], by simp, ?_, ?_, ?_, ?_, ?_⟩⟩ <;>
    simp [tagsOf, countEnter]

theorem GStep.mono {c : Ctx} {P Q : Nat → Prop} {d d' : Nat} {g g' : Glob}
    (h : GStep c P d g g') (hPQ : ∀ x, P x → Q x) (hd : d ≤ d') :
    GStep c Q d' g g' := by
  obtain ⟨new, hnew, hsrc, hcnt, hz, hle, hin⟩ := h.evs
  exact ⟨h.tcMono, h.seenExt,
    ⟨new, hnew, fun ti hti => hPQ _ (hsrc ti hti), by omega, hz, hle, hin⟩⟩

theorem GStep.trans {c : Ctx} {P : Nat → Prop} {d1 d2 : Nat} {g g' g'' : Glob}
    (h1 : GStep c P d1 g g') (h2 : GStep c P d2 g' g'') :
    GStep c P (d1 + d2) g g'' := by
  obtain ⟨ns1, hns1⟩ := h1.seenExt
  obtain ⟨ns2, hns2⟩ := h2.seenExt
  obtain ⟨n1, he1, hs1, hc1, hz1, hl1, hi1⟩ := h1.evs
  obtain ⟨n2, he2, hs2, hc2, hz2, hl2, hi2⟩ := h2.evs
  refine ⟨le_trans h1.tcMono h2.tcMono,
    ⟨ns1 ++ ns2, by rw [hns2, hns1, List.append_assoc]⟩,
    ⟨n1 ++ n2, by rw [he2, he1, List.append_assoc], ?_, ?_, ?_, ?_, ?_⟩⟩
  · intro ti hti
    rw [tagsOf_append] at hti
    rcases List.mem_append.mp hti with h | h
    · exact hs1 ti h
    · exact hs2 ti h
  · rw [tagsOf_append, List.length_append]
    omega
  · intro k hk
    rw [countEnter_append]
    have := hz1 k hk
    have := hz2 k (h1.seen_mono hk)
    omega
  · intro k
    rw [countEnter_append]
    by_cases hk1 : 1 ≤ countEnter k n1
    · have hkseen : k ∈ g'.seenIFDs := hi1 k hk1
      have := hz2 k hkseen
      have := hl1 k
      omega
    · have := hl2 k
      omega
  · intro k hk
    rw [countEnter_append] at hk
    by_cases hk1 : 1 ≤ countEnter k n1
    · exact h2.seen_mono (hi1 k hk1)
    · exact hi2 k (by omega)

/-- The combined walk property: every run satisfies `GStep` and, when
`cond` holds initially, does not exhaust the descent fuel. -/
def Walks (c : Ctx) (P : Nat → Prop) (cond : Glob → Prop) (d : Nat)
    {α : Type} (m : M α) : Prop :=
  ∀ s g, GStep c P d g (m s g).2.1 ∧
    (cond g → (m s g).2.2 ≠ Res.panic .fuelExhausted)

/-- `cond` survives any walk span (used to carry the fuel premise over
binds). -/
def CondStable (c : Ctx) (P : Nat → Prop) (cond : Glob → Prop) : Prop :=
  ∀ g g' d, GStep c P d g g' → cond g → cond g'

theorem walks_mono {c : Ctx} {P Q : Nat → Prop} {cond : Glob → Prop}
    {d d' : Nat} {α : Type} {m : M α}
    (h : Walks c P cond d m) (hPQ : ∀ x, P x → Q x) (hd : d ≤ d') :
    Walks c Q cond d' m := by
  intro s g
  exact ⟨((h s g).1).mono hPQ hd, (h s g).2⟩

theorem walks_pure {c : Ctx} {P : Nat → Prop} {cond : Glob → Prop} {α : Type}
    (a : α) : Walks c P cond 0 (pure a : M α) := by
  intro s g
  exact ⟨GStep.refl c P 0 g, fun _ => by simp [pure, mPure]⟩

theorem walks_bind {c : Ctx} {P : Nat → Prop} {cond : Glob → Prop}
    {d1 d2 : Nat} {α β : Type} {m : M α} {f : α → M β}
    (hst : CondStable c P cond) (hm : Walks c P cond d1 m)
    (hf : ∀ a, Walks c P cond d2 (f a)) :
    Walks c P cond (d1 + d2) (m >>= f) := by
  intro s g
  have h1 := hm s g
  have hgoal : (m >>= f) s g = (match m s g with
    | (s', g', .ok a) => f a s' g'
    | (s', g', .err e) => (s', g', .err e)
    | (s', g', .panic e) => (s', g', .panic e)) := rfl
  rcases hr : m s g with ⟨s', g', r⟩
  rw [hr] at h1
  rw [hgoal, hr]
  cases r with
  | ok a =>
      have h2 := hf a s' g'
      exact ⟨h1.1.trans h2.1, fun hc => h2.2 (hst g g' d1 h1.1 hc)⟩
  | err e =>
      exact ⟨h1.1.mono (fun _ h => h) (by omega), fun _ h => Res.noConfusion h⟩
  | panic e =>
      refine ⟨h1.1.mono (fun _ h => h) (by omega), fun hc => ?_⟩
      dsimp only
      simpa using h1.2 hc

/-- A span that leaves the counter, visited set and trace unchanged. -/
theorem gStep_same {c : Ctx} {P : Nat → Prop} {d : Nat} {g g' : Glob}
    (h1 : g'.tagCount = g.tagCount) (h2 : g'.seenIFDs = g.seenIFDs)
    (h3 : g'.events = g.events) : GStep c P d g g' := by
  refine ⟨le_of_eq h1.symm, ⟨[], by simp [h2]⟩,
    ⟨[], by simp [h3], by simp [tagsOf], ?_, ?_, ?_, ?_⟩⟩
  · simp [tagsOf, h1]
  · intro k _
    simp [countEnter]
  · intro k
    simp [countEnter]
  · intro k hk
    simp [countEnter] at hk

theorem walks_getSR {c : Ctx} {P : Nat → Prop} {cond : Glob → Prop} :
    Walks c P cond 0 getSR := fun s g =>
  ⟨gStep_same rfl rfl rfl, fun _ h => Res.noConfusion h⟩

theorem walks_modifySR {c : Ctx} {P : Nat → Prop} {cond : Glob → Prop}
    (f : SR → SR) : Walks c P cond 0 (modifySR f) := fun s g =>
  ⟨gStep_same rfl rfl rfl, fun _ h => Res.noConfusion h⟩

theorem walks_getGlob {c : Ctx} {P : Nat → Prop} {cond : Glob → Prop} :
    Walks c P cond 0 getGlob := fun s g =>
  ⟨gStep_same rfl rfl rfl, fun _ h => Res.noConfusion h⟩

theorem walks_getPos {c : Ctx} {P : Nat → Prop} {cond : Glob → Prop} :
    Walks c P cond 0 getPos := fun s g =>
  ⟨gStep_same rfl rfl rfl, fun _ h => Res.noConfusion h⟩

theorem walks_warn {c : Ctx} {P : Nat → Prop} {cond : Glob → Prop} :
    Walks c P cond 0 warn := fun s g =>
  ⟨gStep_same rfl rfl rfl, fun _ h => Res.noConfusion h⟩

theorem walks_mErr {c : Ctx} {P : Nat → Prop} {cond : Glob → Prop} {α : Type}
    (e : GoError) : Walks c P cond 0 (mErr e : M α) := fun s g =>
  ⟨gStep_same rfl rfl rfl, fun _ h => Res.noConfusion h⟩

theorem walks_mPanic {c : Ctx} {P : Nat → Prop} {cond : Glob → Prop} {α : Type}
    {e : GoError} (he : e ≠ .fuelExhausted) :
    Walks c P cond 0 (mPanic e : M α) := fun s g =>
  ⟨gStep_same rfl rfl rfl, fun _ h => he (by injection h)⟩

theorem walks_seek {c : Ctx} {P : Nat → Prop} {cond : Glob → Prop} (p : Int) :
    Walks c P cond 0 (seek p) := by
  intro s g
  unfold seek
  repeat' split
  all_goals exact ⟨gStep_same rfl rfl rfl, fun _ h => by simp at h⟩

theorem walks_skip {c : Ctx} {P : Nat → Prop} {cond : Glob → Prop} (n : Int) :
    Walks c P cond 0 (skip n) := by
  intro s g
  unfold skip
  repeat' split
  all_goals exact ⟨gStep_same rfl rfl rfl, fun _ h => by simp at h⟩

theorem walks_stop {c : Ctx} {P : Nat → Prop} {cond : Glob → Prop} (e : GoError) :
    Walks c P cond 0 (stop e) := by
  intro s g
  unfold stop
  repeat' split
  all_goals exact ⟨gStep_same rfl rfl rfl, fun _ h => by simp at h⟩

theorem walks_allocateBuf {c : Ctx} {P : Nat → Prop} {cond : Glob → Prop}
    (n : Nat) : Walks c P cond 0 (allocateBuf n) :=
  walks_modifySR _

theorem walks_bind0 {c : Ctx} {P : Nat → Prop} {cond : Glob → Prop}
    {d : Nat} {α β : Type} {m : M α} {f : α → M β}
    (hst : CondStable c P cond) (hm : Walks c P cond 0 m)
    (hf : ∀ a, Walks c P cond d (f a)) :
    Walks c P cond d (m >>= f) := by
  have := walks_bind hst hm hf
  simpa using this

theorem walks_readNIntoBufE {c : Ctx} {P : Nat → Prop} {cond : Glob → Prop}
    (n : Nat) (hst : CondStable c P cond) :
    Walks c P cond 0 (readNIntoBufE n) := by
  unfold readNIntoBufE
  refine walks_bind0 hst (walks_allocateBuf n) fun _ => ?_
  intro s g
  dsimp only
  repeat' split
  all_goals exact ⟨gStep_same rfl rfl rfl, fun _ h => by simp at h⟩

theorem walks_readNIntoBuf {c : Ctx} {P : Nat → Prop} {cond : Glob → Prop}
    (n : Nat) (hst : CondStable c P cond) :
    Walks c P cond 0 (readNIntoBuf n) := by
  unfold readNIntoBuf
  refine walks_bind0 hst (walks_readNIntoBufE n hst) fun a => ?_
  cases a with
  | none => exact walks_pure _
  | some e => exact walks_stop e

theorem walks_read1 {c : Ctx} {P : Nat → Prop} {cond : Glob → Prop}
    (hst : CondStable c P cond) : Walks c P cond 0 read1 := by
  unfold read1
  exact walks_bind0 hst (walks_readNIntoBuf 1 hst) fun _ =>
    walks_bind0 hst walks_getSR fun _ => walks_pure _

theorem walks_read2 {c : Ctx} {P : Nat → Prop} {cond : Glob → Prop}
    (hst : CondStable c P cond) : Walks c P cond 0 read2 := by
  unfold read2
  exact walks_bind0 hst (walks_readNIntoBuf 2 hst) fun _ =>
    walks_bind0 hst walks_getSR fun _ => walks_pure _

theorem walks_read4 {c : Ctx} {P : Nat → Prop} {cond : Glob → Prop}
    (hst : CondStable c P cond) : Walks c P cond 0 read4 := by
  unfold read4
  exact walks_bind0 hst (walks_readNIntoBuf 4 hst) fun _ =>
    walks_bind0 hst walks_getSR fun _ => walks_pure _

theorem walks_readNFromRIntoBufE {c : Ctx} {P : Nat → Prop} {cond : Glob → Prop}
    (n : Nat) (r : Rdr) (hst : CondStable c P cond) :
    Walks c P cond 0 (readNFromRIntoBufE n r) := by
  cases r with
  | main =>
      unfold readNFromRIntoBufE
      exact walks_bind0 hst (walks_readNIntoBufE n hst) fun _ => walks_pure _
  | sub rr =>
      unfold readNFromRIntoBufE
      refine walks_bind0 hst (walks_allocateBuf n) fun _ => ?_
      intro s g
      dsimp only
      repeat' split
      all_goals exact ⟨gStep_same rfl rfl rfl, fun _ h => by simp at h⟩

theorem walks_readNFromRIntoBuf {c : Ctx} {P : Nat → Prop} {cond : Glob → Prop}
    (n : Nat) (r : Rdr) (hst : CondStable c P cond) :
    Walks c P cond 0 (readNFromRIntoBuf n r) := by
  unfold readNFromRIntoBuf
  refine walks_bind0 hst (walks_readNFromRIntoBufE n r hst) fun a => ?_
  rcases a with ⟨r', e⟩
  dsimp only
  cases e with
  | none => exact walks_pure _
  | some er =>
      exact walks_bind0 hst (walks_stop er) fun _ => walks_pure _

theorem walks_read1r {c : Ctx} {P : Nat → Prop} {cond : Glob → Prop}
    (r : Rdr) (hst : CondStable c P cond) : Walks c P cond 0 (read1r r) := by
  unfold read1r
  exact walks_bind0 hst (walks_readNFromRIntoBuf 1 r hst) fun _ =>
    walks_bind0 hst walks_getSR fun _ => walks_pure _

theorem walks_read2r {c : Ctx} {P : Nat → Prop} {cond : Glob → Prop}
    (r : Rdr) (hst : CondStable c P cond) : Walks c P cond 0 (read2r r) := by
  unfold read2r
  exact walks_bind0 hst (walks_readNFromRIntoBuf 2 r hst) fun _ =>
    walks_bind0 hst walks_getSR fun _ => walks_pure _

theorem walks_read4r {c : Ctx} {P : Nat → Prop} {cond : Glob → Prop}
    (r : Rdr) (hst : CondStable c P cond) : Walks c P cond 0 (read4r r) := by
  unfold read4r
  exact walks_bind0 hst (walks_readNFromRIntoBuf 4 r hst) fun _ =>
    walks_bind0 hst walks_getSR fun _ => walks_pure _

theorem walks_read4sr {c : Ctx} {P : Nat → Prop} {cond : Glob → Prop}
    (r : Rdr) (hst : CondStable c P cond) : Walks c P cond 0 (read4sr r) := by
  unfold read4sr
  exact walks_bind0 hst (walks_readNFromRIntoBuf 4 r hst) fun _ =>
    walks_bind0 hst walks_getSR fun _ => walks_pure _

theorem walks_read8r {c : Ctx} {P : Nat → Prop} {cond : Glob → Prop}
    (r : Rdr) (hst : CondStable c P cond) : Walks c P cond 0 (read8r r) := by
  unfold read8r
  exact walks_bind0 hst (walks_readNFromRIntoBuf 8 r hst) fun _ =>
    walks_bind0 hst walks_getSR fun _ => walks_pure _

theorem walks_readBytesVolatile {c : Ctx} {P : Nat → Prop} {cond : Glob → Prop}
    (n : Nat) (hst : CondStable c P cond) :
    Walks c P cond 0 (readBytesVolatile n) := by
  unfold readBytesVolatile
  exact walks_bind0 hst (walks_allocateBuf n) fun _ =>
    walks_bind0 hst (walks_readNIntoBuf n hst) fun _ =>
      walks_bind0 hst walks_getSR fun _ => walks_pure _

theorem walks_readBytesFromRVolatile {c : Ctx} {P : Nat → Prop}
    {cond : Glob → Prop} (n : Nat) (r : Rdr) (hst : CondStable c P cond) :
    Walks c P cond 0 (readBytesFromRVolatile n r) := by
  unfold readBytesFromRVolatile
  exact walks_bind0 hst (walks_allocateBuf n) fun _ =>
    walks_bind0 hst (walks_readNFromRIntoBuf n r hst) fun _ =>
      walks_bind0 hst walks_getSR fun _ => walks_pure _

theorem walks_bufferedReader {c : Ctx} {P : Nat → Prop} {cond : Glob → Prop}
    (length : Int) : Walks c P cond 0 (bufferedReader length) := by
  intro s g
  unfold bufferedReader
  dsimp only
  repeat' split
  all_goals exact ⟨gStep_same rfl rfl rfl, fun _ h => by simp at h⟩

theorem walks_preservePos {c : Ctx} {P : Nat → Prop} {cond : Glob → Prop}
    {d : Nat} {α : Type} {m : M α} (h : Walks c P cond d m) :
    Walks c P cond d (preservePos m) := by
  intro s g
  have h1 := h s g
  unfold preservePos
  rcases hr : m s g with ⟨s', g', r⟩
  rw [hr] at h1
  exact ⟨h1.1, h1.2⟩

theorem walks_runSub {c : Ctx} {P : Nat → Prop} {cond : Glob → Prop}
    {d : Nat} {α : Type} {m : M α} (data : List Nat) (h : Walks c P cond d m) :
    Walks c P cond d (runSub data m) := by
  intro s g
  have h1 := h (SR.mk0 data true) g
  unfold runSub
  rcases hr : m (SR.mk0 data true) g with ⟨s', g', r⟩
  rw [hr] at h1
  exact ⟨h1.1, h1.2⟩

theorem walks_shouldHandleTagW {c : Ctx} {P : Nat → Prop} {cond : Glob → Prop}
    (ti : TagInfo) : Walks c P cond 0 (shouldHandleTagW c ti) := by
  intro s g
  unfold shouldHandleTagW
  have hstep : GStep c P 0 g { g with tagCount := g.tagCount + 1 } := by
    refine ⟨by simp, ⟨[], by simp⟩,
      ⟨[], by simp, by simp [tagsOf], ?_, ?_, ?_, ?_⟩⟩
    · simp only [tagsOf, List.length_nil]
      omega
    · intro k _
      simp [countEnter]
    · intro k
      simp [countEnter]
    · intro k hk
      simp [countEnter] at hk
  split
  · exact ⟨hstep, fun _ h => by injection h with h2; cases h2⟩
  · exact ⟨hstep, fun _ h => Res.noConfusion h⟩

theorem walks_handleTagW {c : Ctx} {P : Nat → Prop} {cond : Glob → Prop}
    (ti : TagInfo) (hsrc : P ti.source) :
    Walks c P cond 1 (handleTagW c ti) := by
  intro s g
  unfold handleTagW
  refine ⟨⟨by simp, ⟨[], by simp⟩,
    ⟨[.tag ti], by simp, ?_, ?_, ?_, ?_, ?_⟩⟩, fun _ h => Res.noConfusion h⟩
  · intro x hx
    simp [tagsOf] at hx
    subst hx
    exact hsrc
  · simp only [tagsOf, List.length_cons, List.length_nil]
    omega
  · intro k _
    simp [countEnter]
  · intro k
    simp [countEnter]
  · intro k hk
    simp [countEnter] at hk

/-- The `ShouldHandleTag`-then-continue pattern: the completed wrapper
call funds one later emission in either continuation branch. -/
theorem walks_shtBind {c : Ctx} {P : Nat → Prop} {cond : Glob → Prop}
    {d : Nat} {α : Type} (ti : TagInfo) {k : Bool → M α}
    (hst : CondStable c P cond)
    (hk : ∀ b, Walks c P cond (d + 1) (k b)) :
    Walks c P cond d (shouldHandleTagW c ti >>= k) := by
  intro s g
  have hbase : GStep c P d g { g with tagCount := g.tagCount + 1 } := by
    refine ⟨by simp, ⟨[], by simp⟩,
      ⟨[], by simp, by simp [tagsOf], ?_, ?_, ?_, ?_⟩⟩
    · simp only [tagsOf, List.length_nil]
      omega
    · intro k' _
      simp [countEnter]
    · intro k'
      simp [countEnter]
    · intro k' hk'
      simp [countEnter] at hk'
  show GStep c P d g ((mBind (shouldHandleTagW c ti) k) s g).2.1 ∧
    (cond g → ((mBind (shouldHandleTagW c ti) k) s g).2.2 ≠ Res.panic .fuelExhausted)
  unfold mBind shouldHandleTagW
  by_cases hlim : g.tagCount + 1 > c.opts.limitNumTags
  · rw [if_pos hlim]
    exact ⟨hbase, fun _ h => by simp at h⟩
  · rw [if_neg hlim]
    set g1 : Glob := { g with tagCount := g.tagCount + 1 } with hg1
    show GStep c P d g ((k (c.opts.shouldHandleTag ti) s g1).2.1) ∧
      (cond g → (k (c.opts.shouldHandleTag ti) s g1).2.2 ≠ Res.panic .fuelExhausted)
    have hg1tc : g1.tagCount = g.tagCount + 1 := rfl
    have hg1s : g1.seenIFDs = g.seenIFDs := rfl
    have hg1e : g1.events = g.events := rfl
    have hcond1 : cond g → cond g1 := by
      intro hc
      refine hst g g1 0 ?_ hc
      refine ⟨by omega, ⟨[], by simp [hg1s]⟩,
        ⟨[], by simp [hg1e], by simp [tagsOf], ?_, ?_, ?_, ?_⟩⟩
      · simp only [tagsOf, List.length_nil]
        omega
      · intro k' _
        simp [countEnter]
      · intro k'
        simp [countEnter]
      · intro k' hk'
        simp [countEnter] at hk'
    have h2 := hk (c.opts.shouldHandleTag ti) s g1
    refine ⟨?_, fun hc => h2.2 (hcond1 hc)⟩
    obtain ⟨n2, he2, hs2, hc2, hz2, hl2, hi2⟩ := h2.1.evs
    obtain ⟨ns2, hns2⟩ := h2.1.seenExt
    have htc := h2.1.tcMono
    refine ⟨by omega, ⟨ns2, by rw [hns2, hg1s]⟩,
      ⟨n2, by rw [he2, hg1e], hs2, ?_, ?_, hl2, ?_⟩⟩
    · omega
    · intro k' hk'
      exact hz2 k' (by rw [hg1s]; exact hk')
    · intro k' hk'
      exact hi2 k' hk'

/-! ## Budget-carrying spans

For the IPTC decoder the emission credit is not a constant: completed
`ShouldHandleTag` calls fund entries of the local accumulation map,
which are emitted only by the final flush. `WalksB` generalizes `Walks`
with a budget that the result value carries forward, plus a result
refinement `inv`. -/

def WalksB (c : Ctx) (P : Nat → Prop) (cond : Glob → Prop) {α : Type}
    (m : M α) (pre : Nat) (post : α → Nat) (inv : α → Prop) : Prop :=
  ∀ s g,
    (GStep c P pre g (m s g).2.1) ∧
    (∀ a, (m s g).2.2 = .ok a →
      ∃ new, (m s g).2.1.events = g.events ++ new ∧
        (tagsOf new).length + post a + min g.tagCount c.opts.limitNumTags ≤
          min (m s g).2.1.tagCount c.opts.limitNumTags + pre) ∧
    (∀ a, (m s g).2.2 = .ok a → inv a) ∧
    (cond g → (m s g).2.2 ≠ Res.panic .fuelExhausted)

theorem walksB_of_walks {c : Ctx} {P : Nat → Prop} {cond : Glob → Prop}
    {α : Type} {m : M α} {d b : Nat}
    (h : Walks c P cond d m) :
    WalksB c P cond m (b + d) (fun _ => b) (fun _ => True) := by
  intro s g
  have h1 := h s g
  refine ⟨h1.1.mono (fun _ p => p) (by omega), ?_, fun _ _ => trivial, h1.2⟩
  intro a _
  obtain ⟨new, he, _, hc, _, _, _⟩ := h1.1.evs
  exact ⟨new, he, by beta_reduce; omega⟩

theorem walksB_pure {c : Ctx} {P : Nat → Prop} {cond : Glob → Prop}
    {α : Type} (a : α) (post : α → Nat) {inv : α → Prop} (hinv : inv a) :
    WalksB c P cond (pure a : M α) (post a) post inv := by
  intro s g
  refine ⟨GStep.refl c P _ g, ?_, ?_, fun _ h => Res.noConfusion h⟩
  · intro a' ha'
    have haa : a = a' := Res.ok.inj ha'
    subst haa
    refine ⟨[], by show g.events = g.events ++ []; simp, ?_⟩
    have hgoal : (0 : Nat) + post a + min g.tagCount c.opts.limitNumTags ≤
        min g.tagCount c.opts.limitNumTags + post a := by omega
    exact hgoal
  · intro a' ha'
    have haa : a = a' := Res.ok.inj ha'
    subst haa
    exact hinv

theorem walksB_mono {c : Ctx} {P : Nat → Prop} {cond : Glob → Prop}
    {α : Type} {m : M α} {pre pre' : Nat} {post post' : α → Nat}
    {inv inv' : α → Prop}
    (h : WalksB c P cond m pre post inv) (hpre : pre ≤ pre')
    (hpost : ∀ a, inv a → post' a ≤ post a) (hinv : ∀ a, inv a → inv' a) :
    WalksB c P cond m pre' post' inv' := by
  intro s g
  obtain ⟨h1, h2, h3, h4⟩ := h s g
  refine ⟨h1.mono (fun _ p => p) hpre, ?_, fun a ha => hinv a (h3 a ha), h4⟩
  intro a ha
  obtain ⟨new, he, hc⟩ := h2 a ha
  have := hpost a (h3 a ha)
  exact ⟨new, he, by omega⟩

theorem walksB_mErr {c : Ctx} {P : Nat → Prop} {cond : Glob → Prop}
    {α : Type} (e : GoError) (pre : Nat) (post : α → Nat) (inv : α → Prop) :
    WalksB c P cond (mErr e : M α) pre post inv := by
  intro s g
  exact ⟨GStep.refl c P _ g, fun a ha => Res.noConfusion ha,
    fun a ha => Res.noConfusion ha, fun _ h => Res.noConfusion h⟩

theorem walksB_mPanic {c : Ctx} {P : Nat → Prop} {cond : Glob → Prop}
    {α : Type} {e : GoError} (he : e ≠ .fuelExhausted) (pre : Nat)
    (post : α → Nat) (inv : α → Prop) :
    WalksB c P cond (mPanic e : M α) pre post inv := by
  intro s g
  exact ⟨GStep.refl c P _ g, fun a ha => Res.noConfusion ha,
    fun a ha => Res.noConfusion ha, fun _ h => he (by injection h)⟩

theorem walksB_bind {c : Ctx} {P : Nat → Prop} {cond : Glob → Prop}
    {α β : Type} {m : M α} {f : α → M β} {pre : Nat} {post1 : α → Nat}
    {inv1 : α → Prop} {post2 : β → Nat} {inv2 : β → Prop}
    (hst : CondStable c P cond)
    (hm : WalksB c P cond m pre post1 inv1)
    (hf : ∀ a, inv1 a → WalksB c P cond (f a) (post1 a) post2 inv2) :
    WalksB c P cond (m >>= f) pre post2 inv2 := by
  intro s g
  have h1 := hm s g
  have hgoal : (m >>= f) s g = (match m s g with
    | (s', g', .ok a) => f a s' g'
    | (s', g', .err e) => (s', g', .err e)
    | (s', g', .panic e) => (s', g', .panic e)) := rfl
  rcases hr : m s g with ⟨s', g', r⟩
  rw [hr] at h1
  rw [hgoal, hr]
  obtain ⟨h1g, h1r, h1i, h1f⟩ := h1
  cases r with
  | ok a =>
      dsimp only
      dsimp only at h1g h1r h1i h1f
      have hinv1 : inv1 a := h1i a rfl
      have h2 := hf a hinv1 s' g'
      obtain ⟨h2g, h2r, h2i, h2f⟩ := h2
      obtain ⟨n1, he1, hcnt1⟩ := h1r a rfl
      obtain ⟨n1x, he1x, hs1, _hcoarse1, hz1, hl1, hi1⟩ := h1g.evs
      have hn1 : n1x = n1 := List.append_cancel_left (he1x.symm.trans he1)
      rw [hn1] at hs1 hz1 hl1 hi1
      obtain ⟨n2, he2, hs2, hcoarse2, hz2, hl2, hi2⟩ := h2g.evs
      have htrans := h1g.trans h2g
      refine ⟨?_, ?_, h2i, fun hc => h2f (hst g g' pre h1g hc)⟩
      · -- the combined span keeps the entry budget: the ok-refinement of
        -- the first part funds the coarse count of the second
        refine ⟨htrans.tcMono, htrans.seenExt, ?_⟩
        refine ⟨n1 ++ n2, by rw [he2, he1, List.append_assoc], ?_, ?_, ?_, ?_, ?_⟩
        · intro ti hti
          rw [tagsOf_append] at hti
          rcases List.mem_append.mp hti with h | h
          · exact hs1 ti h
          · exact hs2 ti h
        · rw [tagsOf_append, List.length_append]
          omega
        · intro k hk
          rw [countEnter_append]
          have := hz1 k hk
          have := hz2 k (h1g.seen_mono hk)
          omega
        · intro k
          rw [countEnter_append]
          by_cases hk1 : 1 ≤ countEnter k n1
          · have := hz2 k (hi1 k hk1)
            have := hl1 k
            omega
          · have := hl2 k
            omega
        · intro k hk
          rw [countEnter_append] at hk
          by_cases hk1 : 1 ≤ countEnter k n1
          · exact h2g.seen_mono (hi1 k hk1)
          · exact hi2 k (by omega)
      · intro b hb
        obtain ⟨n2x, he2x, hcnt2⟩ := h2r b hb
        have hn2 : n2x = n2 := List.append_cancel_left (he2x.symm.trans he2)
        rw [hn2] at hcnt2
        refine ⟨n1 ++ n2, by rw [he2, he1, List.append_assoc], ?_⟩
        rw [tagsOf_append, List.length_append]
        omega
  | err e =>
      exact ⟨h1g, fun a ha => Res.noConfusion ha, fun a ha => Res.noConfusion ha,
        fun _ h => by simp at h⟩
  | panic e =>
      refine ⟨h1g, fun a ha => Res.noConfusion ha, fun a ha => Res.noConfusion ha,
        fun hc => ?_⟩
      simpa using h1f hc

/-- `ShouldHandleTag`-then-continue with a carried budget. -/
theorem walksB_shtBind {c : Ctx} {P : Nat → Prop} {cond : Glob → Prop}
    {α : Type} (ti : TagInfo) {k : Bool → M α} {pre : Nat} {post : α → Nat}
    {inv : α → Prop} (hst : CondStable c P cond)
    (hk : ∀ b, WalksB c P cond (k b) (pre + 1) post inv) :
    WalksB c P cond (shouldHandleTagW c ti >>= k) pre post inv := by
  intro s g
  have hbase : GStep c P pre g { g with tagCount := g.tagCount + 1 } := by
    refine ⟨by simp, ⟨[], by simp⟩,
      ⟨[], by simp, by simp [tagsOf], ?_, ?_, ?_, ?_⟩⟩
    · simp only [tagsOf, List.length_nil]
      omega
    · intro k' _
      simp [countEnter]
    · intro k'
      simp [countEnter]
    · intro k' hk'
      simp [countEnter] at hk'
  by_cases hlim : g.tagCount + 1 > c.opts.limitNumTags
  · have hev : (shouldHandleTagW c ti >>= k) s g
        = (s, { g with tagCount := g.tagCount + 1 }, Res.panic .stopWalking) := by
      show (mBind (shouldHandleTagW c ti) k) s g = _
      simp only [mBind, shouldHandleTagW, if_pos hlim]
    rw [hev]
    exact ⟨hbase, fun a ha => Res.noConfusion ha, fun a ha => Res.noConfusion ha,
      fun _ h => by simp at h⟩
  · have hev : (shouldHandleTagW c ti >>= k) s g
        = k (c.opts.shouldHandleTag ti) s { g with tagCount := g.tagCount + 1 } := by
      show (mBind (shouldHandleTagW c ti) k) s g = _
      simp only [mBind, shouldHandleTagW, if_neg hlim]
    rw [hev]
    set g1 : Glob := { g with tagCount := g.tagCount + 1 } with hg1
    have hg1tc : g1.tagCount = g.tagCount + 1 := rfl
    have hg1s : g1.seenIFDs = g.seenIFDs := rfl
    have hg1e : g1.events = g.events := rfl
    have hcond1 : cond g → cond g1 := by
      intro hc
      refine hst g g1 0 ?_ hc
      refine ⟨by omega, ⟨[], by simp [hg1s]⟩,
        ⟨[], by simp [hg1e], by simp [tagsOf], ?_, ?_, ?_, ?_⟩⟩
      · simp only [tagsOf, List.length_nil]
        omega
      · intro k' _
        simp [countEnter]
      · intro k'
        simp [countEnter]
      · intro k' hk'
        simp [countEnter] at hk'
    obtain ⟨h2g, h2r, h2i, h2f⟩ := hk (c.opts.shouldHandleTag ti) s g1
    obtain ⟨n2, he2, hs2, hc2, hz2, hl2, hi2⟩ := h2g.evs
    obtain ⟨ns2, hns2⟩ := h2g.seenExt
    have htc := h2g.tcMono
    refine ⟨⟨by omega, ⟨ns2, by rw [hns2, hg1s]⟩,
      ⟨n2, by rw [he2, hg1e], hs2, by omega, ?_, hl2, fun k' hk' => hi2 k' hk'⟩⟩,
      ?_, h2i, fun hc => h2f (hcond1 hc)⟩
    · intro k' hk'
      exact hz2 k' (by rw [hg1s]; exact hk')
    · intro a ha
      obtain ⟨n2x, he2x, hcnt2⟩ := h2r a ha
      refine ⟨n2x, by rw [he2x, hg1e], by omega⟩

/-- A zero-`pre` budgeted span is a plain zero-credit walk. -/
theorem walks_of_walksB {c : Ctx} {P : Nat → Prop} {cond : Glob → Prop}
    {α : Type} {m : M α} {post : α → Nat} {inv : α → Prop}
    (h : WalksB c P cond m 0 post inv) : Walks c P cond 0 m :=
  fun s g => ⟨(h s g).1, (h s g).2.2.2⟩

/-- A zero-credit walk prefix preserves the carried budget. -/
theorem walksB_bind0W {c : Ctx} {P : Nat → Prop} {cond : Glob → Prop}
    {α β : Type} {m : M α} {f : α → M β} {pre : Nat} {post : β → Nat}
    {inv : β → Prop} (hst : CondStable c P cond) (hm : Walks c P cond 0 m)
    (hf : ∀ a, WalksB c P cond (f a) pre post inv) :
    WalksB c P cond (m >>= f) pre post inv :=
  walksB_bind hst (walksB_of_walks hm) fun a _ => hf a

/-- `HandleTag` as a budgeted span: one emission consumes one credit. -/
theorem walksB_handleTagW {c : Ctx} {P : Nat → Prop} {cond : Glob → Prop}
    (ti : TagInfo) (hsrc : P ti.source) (pre : Nat) :
    WalksB c P cond (handleTagW c ti) (pre + 1) (fun _ => pre)
      (fun _ => True) := by
  intro s g
  unfold handleTagW
  dsimp only
  refine ⟨⟨by simp, ⟨[], by simp⟩,
    ⟨[.tag ti], by simp, ?_, ?_, ?_, ?_, ?_⟩⟩, ?_, fun _ _ => trivial,
    fun _ h => Res.noConfusion h⟩
  · intro x hx
    simp [tagsOf] at hx
    subst hx
    exact hsrc
  · simp only [tagsOf, List.length_cons, List.length_nil]
    omega
  · intro k _
    simp [countEnter]
  · intro k
    simp [countEnter]
  · intro k hk
    simp [countEnter] at hk
  · intro a _
    refine ⟨[.tag ti], by simp, ?_⟩
    beta_reduce
    simp only [tagsOf, List.length_cons, List.length_nil]
    omega

/-! ## The IPTC decoder's walk lemmas

Map entries are deferred emissions: each completed `ShouldHandleTag`
call funds either an immediate `HandleTag` or one map entry, and the
final flush emits one tag per entry. The budget of a span is therefore
the length of the accumulation map it carries. -/

theorem slicesAppend_length (m : SlicesMap) (k : TagInfo) (v : List Nat) :
    (slicesAppend m k v).length ≤ m.length + 1 := by
  unfold slicesAppend
  split
  · simp
  · rw [List.length_map]
    omega

theorem mapInv_slicesAppend {P : Nat → Prop} {m : SlicesMap}
    (hm : mapInv P m) {k : TagInfo} (hk : P k.source) (v : List Nat) :
    mapInv P (slicesAppend m k v) := by
  intro p hp
  unfold slicesAppend at hp
  split at hp
  · rcases List.mem_append.mp hp with h | h
    · exact hm p h
    · simp at h
      subst h
      exact hk
  · rcases List.mem_map.mp hp with ⟨q, hq, hqe⟩
    by_cases hb : tagInfoBeq q.1 k
    · rw [if_pos hb] at hqe
      subst hqe
      exact hm q hq
    · rw [if_neg hb] at hqe
      subst hqe
      exact hm q hq

/-- The value read of one IPTC record is a zero-credit walk. -/
theorem walks_iptcReadValue {c : Ctx} {P : Nat → Prop} {cond : Glob → Prop}
    (hst : CondStable c P cond) (recordType datasetNumber recordSize : Nat)
    (charset : List Nat) :
    Walks c P cond 0
      (iptcReadValue c recordType datasetNumber recordSize charset) := by
  unfold iptcReadValue
  split
  · refine walks_bind0 hst (walks_readBytesVolatile _ hst) fun b => ?_
    split
    · exact walks_pure _
    · exact walks_pure _
  · split
    · exact walks_bind0 hst (walks_read4 hst) fun x => walks_pure _
    · split
      · exact walks_bind0 hst (walks_read2 hst) fun x => walks_pure _
      · split
        · exact walks_bind0 hst (walks_read1 hst) fun x => walks_pure _
        · exact walks_mPanic (by simp)

/-- The character-set update of one IPTC record is a zero-credit walk. -/
theorem walks_iptcUpdateCharset {c : Ctx} {P : Nat → Prop} {cond : Glob → Prop}
    (recordType datasetNumber : Nat) (v : Val) (charset : List Nat) :
    Walks c P cond 0
      (iptcUpdateCharset c recordType datasetNumber v charset) := by
  unfold iptcUpdateCharset
  split
  · split
    all_goals first
      | exact walks_pure _
      | exact walks_mPanic (by simp)
  · exact walks_pure _

/-- `decodeRecord` keeps the map-length budget: the record either
skips (no change), defers into the map (one new entry funded by the
completed `ShouldHandleTag` call), or emits immediately. -/
theorem walksB_decodeRecord {c : Ctx} {P : Nat → Prop} {cond : Glob → Prop}
    (hst : CondStable c P cond) (hP : P IPTC) (charset : List Nat)
    (m : SlicesMap) (hm : mapInv P m) :
    WalksB c P cond (decodeRecord c charset m) m.length
      (fun r => r.2.length) (fun r => mapInv P r.2) := by
  unfold decodeRecord
  refine walksB_bind0W hst (walks_read1 hst) fun recordType => ?_
  refine walksB_bind0W hst (walks_read1 hst) fun datasetNumber => ?_
  refine walksB_bind0W hst (walks_read2 hst) fun recordSize => ?_
  split
  · refine walksB_bind0W hst (walks_skip _) fun _ => ?_
    exact walksB_pure (charset, m) (fun r => r.2.length) hm
  · refine walksB_shtBind _ hst fun ok => ?_
    split
    · refine walksB_bind0W hst (walks_skip _) fun _ => ?_
      exact walksB_mono (walksB_pure (charset, m) (fun r => r.2.length) hm)
        (Nat.le_succ _) (fun a _ => le_refl _) (fun a h => h)
    · refine walksB_bind0W hst (walks_iptcReadValue hst _ _ _ _) fun v => ?_
      refine walksB_bind0W hst (walks_iptcUpdateCharset _ _ _ _) fun cs => ?_
      split
      · refine walksB_mono
          (walksB_pure _ (fun r => r.2.length) ?_)
          (slicesAppend_length m _ _) (fun a _ => le_refl _)
          (fun a h => h)
        exact mapInv_slicesAppend hm hP _
      · refine walksB_bind hst (walksB_handleTagW _ hP m.length)
          fun a _ => ?_
        cases a with
        | none => exact walksB_pure (cs, m) (fun r => r.2.length) hm
        | some er => exact walksB_mErr er m.length _ _

/-- The record loop keeps the map-length budget at every fuel. -/
theorem walksB_iptcRecordsLoop {c : Ctx} {P : Nat → Prop} {cond : Glob → Prop}
    (hst : CondStable c P cond) (hP : P IPTC) (f : Nat) :
    ∀ (charset : List Nat) (m : SlicesMap), mapInv P m →
    WalksB c P cond (iptcRecordsLoop c f charset m) m.length
      (fun r => r.length) (mapInv P) := by
  induction f with
  | zero =>
      intro charset m hm
      exact walksB_pure m (fun r => r.length) hm
  | succ f ih =>
      intro charset m hm
      refine walksB_bind0W hst walks_getSR fun s => ?_
      split
      · exact walksB_pure m (fun r => r.length) hm
      · dsimp only
        refine walksB_bind0W hst (walks_modifySR _) fun _ => ?_
        split
        · exact walksB_pure m (fun r => r.length) hm
        · refine walksB_bind hst (walksB_decodeRecord hst hP charset m hm)
            fun r hr => ?_
          rcases r with ⟨charset', m'⟩
          exact ih charset' m' hr

/-- The flush loop emits exactly one tag per accumulated entry. -/
theorem walks_flushLoop {c : Ctx} {P : Nat → Prop} {cond : Glob → Prop}
    (hst : CondStable c P cond) :
    ∀ l : SlicesMap, (∀ p ∈ l, P p.1.source) →
    Walks c P cond l.length (flushLoop c l) := by
  intro l
  induction l with
  | nil =>
      intro _
      exact walks_pure ()
  | cons p rest ih =>
      intro hl
      rcases p with ⟨ti, values⟩
      have h1 : Walks c P cond (1 + rest.length)
          (flushLoop c ((ti, values) :: rest)) := by
        refine walks_bind hst
          (walks_handleTagW _ (hl (ti, values) (List.mem_cons_self _ _)))
          fun a => ?_
        cases a with
        | none => exact ih fun q hq => hl q (List.mem_cons_of_mem _ hq)
        | some er => exact walks_mono (walks_mErr er) (fun _ h => h) (by omega)
      exact walks_mono h1 (fun _ h => h) (by simp [Nat.add_comm])

/-- `handlestringSlices`: flushing the map in any iteration order that
is a permutation of insertion order emits one tag per entry. -/
theorem walks_handlestringSlices {c : Ctx} {P : Nat → Prop}
    {cond : Glob → Prop} (hst : CondStable c P cond)
    (hord : ∀ l, (c.mapOrd l).Perm l) (m : SlicesMap) (hm : mapInv P m) :
    Walks c P cond m.length (handlestringSlices c m) := by
  unfold handlestringSlices
  split
  · exact walks_mono (walks_pure ()) (fun _ h => h) (by omega)
  · have hperm := hord m
    have hmem : ∀ p ∈ c.mapOrd m, P p.1.source := fun p hp =>
      hm p (hperm.mem_iff.mp hp)
    exact walks_mono (walks_flushLoop hst _ hmem) (fun _ h => h)
      (le_of_eq hperm.length_eq)

/-- The whole IPTC record decode is a zero-credit walk: every emission
is funded by a completed `ShouldHandleTag` call; it never exhausts the
EXIF descent fuel; every emitted tag has source IPTC (instantiating
`P`). -/
theorem walks_decodeRecordsBody {c : Ctx} {P : Nat → Prop}
    {cond : Glob → Prop} (hst : CondStable c P cond) (hP : P IPTC)
    (hord : ∀ l, (c.mapOrd l).Perm l) :
    Walks c P cond 0 (decodeRecordsBody c) := by
  have hB : WalksB c P cond (decodeRecordsBody c) 0 (fun _ => 0)
      (fun _ => True) := by
    unfold decodeRecordsBody
    refine walksB_bind0W hst walks_getSR fun s => ?_
    refine walksB_bind hst
      (walksB_iptcRecordsLoop hst hP (s.data.length + 1) [] []
        (fun p hp => by simp at hp))
      fun m hm => ?_
    refine walksB_mono (walksB_of_walks (b := 0)
      (walks_handlestringSlices hst hord m hm)) (by omega)
      (fun a _ => le_refl _) (fun a _ => trivial)
  exact walks_of_walksB hB

theorem walks_decodeRecords {c : Ctx} {P : Nat → Prop} {cond : Glob → Prop}
    (hst : CondStable c P cond) (hP : P IPTC)
    (hord : ∀ l, (c.mapOrd l).Perm l) (data : List Nat) :
    Walks c P cond 0 (decodeRecords c data) :=
  walks_runSub data (walks_decodeRecordsBody hst hP hord)

/-! ## The XMP decoder's walk lemmas -/

theorem walks_xmpAttrLoop {c : Ctx} {P : Nat → Prop} {cond : Glob → Prop}
    (hst : CondStable c P cond) (hP : P XMP) :
    ∀ attrs : List XmpAttr, Walks c P cond 0 (xmpAttrLoop c attrs) := by
  intro attrs
  induction attrs with
  | nil => exact walks_pure ()
  | cons a rest ih =>
      unfold xmpAttrLoop
      split
      · exact ih
      · refine walks_shtBind _ hst fun ok => ?_
        split
        · exact walks_mono ih (fun _ h => h) (by omega)
        · show Walks c P cond (1 + 0) _
          refine walks_bind hst (walks_handleTagW _ hP) fun r => ?_
          cases r with
          | none => exact ih
          | some er => exact walks_mErr er

theorem walks_decodeXMP {c : Ctx} {P : Nat → Prop} {cond : Glob → Prop}
    (hst : CondStable c P cond) (hP : P XMP) (data : List Nat) :
    Walks c P cond 0 (decodeXMP c data) := by
  unfold decodeXMP
  split
  · split
    split
    · exact walks_mErr _
    · split
      · exact walks_mErr _
      · exact walks_pure _
  · split
    · exact walks_mErr _
    · exact walks_xmpAttrLoop hst hP _

/-! ## Fuel and visited-set machinery for the EXIF walk -/

theorem length_filter_mono {α : Type} {p q : α → Bool} (l : List α)
    (h : ∀ a, p a = true → q a = true) :
    (l.filter p).length ≤ (l.filter q).length := by
  induction l with
  | nil => simp
  | cons a t ih =>
      rw [List.filter_cons, List.filter_cons]
      by_cases hp : p a = true
      · rw [if_pos hp, if_pos (h a hp)]
        simpa using ih
      · rw [if_neg hp]
        by_cases hq : q a = true
        · rw [if_pos hq]
          simp only [List.length_cons]
          omega
        · rw [if_neg hq]
          exact ih

theorem length_filter_notmem_append_lt {x : String} {sn : List String} :
    ∀ l : List String, x ∈ l → x ∉ sn →
    (l.filter fun k => ¬ k ∈ sn ++ [x]).length <
      (l.filter fun k => ¬ k ∈ sn).length := by
  intro l
  induction l with
  | nil => intro hx; cases hx
  | cons a t ih =>
      intro hx hns
      rw [List.filter_cons, List.filter_cons]
      by_cases hax : a = x
      · subst hax
        rw [if_neg (by simp), if_pos (by simpa using hns)]
        simp only [List.length_cons]
        have hmono : (t.filter fun k => ¬ k ∈ sn ++ [a]).length ≤
            (t.filter fun k => ¬ k ∈ sn).length := by
          refine length_filter_mono _ fun b hb => ?_
          simp only [decide_eq_true_eq] at hb ⊢
          intro hbmem
          exact hb (List.mem_append_left _ hbmem)
        omega
      · have hx' : x ∈ t := by
          rcases List.mem_cons.mp hx with h | h
          · exact absurd h.symm hax
          · exact h
        by_cases ha : a ∈ sn
        · rw [if_neg (by simp [ha]), if_neg (by simp [ha])]
          exact ih hx' hns
        · rw [if_pos (by simp [ha, hax]), if_pos (by simp [ha])]
          simp only [List.length_cons]
          have := ih hx' hns
          omega

theorem unseenCount_mono {g g' : Glob}
    (hns : ∃ ns, g'.seenIFDs = g.seenIFDs ++ ns) :
    unseenCount g' ≤ unseenCount g := by
  obtain ⟨ns, hns⟩ := hns
  unfold unseenCount
  refine length_filter_mono _ fun a ha => ?_
  simp only [decide_eq_true_eq] at ha ⊢
  intro hmem
  exact ha (by rw [hns]; exact List.mem_append_left _ hmem)

theorem condU_stable (c : Ctx) (P : Nat → Prop) (n : Nat) :
    CondStable c P (condU n) := by
  intro g g' d h hc
  have := unseenCount_mono h.seenExt
  unfold condU at hc ⊢
  omega

theorem unseenCount_insert_lt {g : Glob} {ifd : String}
    (hifd : ifd ∈ ifdKinds) (hns : ifd ∉ g.seenIFDs) :
    unseenCount { g with
        seenIFDs := g.seenIFDs ++ [ifd],
        events := g.events ++ [.enterIFD ifd] } < unseenCount g :=
  length_filter_notmem_append_lt ifdKinds hifd hns

theorem unseenCount_le_three (g : Glob) : unseenCount g ≤ 3 := by
  have h := List.length_filter_le
    (fun k => decide (¬ k ∈ g.seenIFDs)) ifdKinds
  simpa [unseenCount, ifdKinds] using h

theorem exifIFDPointers_mem {t : Nat} {ifd : String}
    (h : exifIFDPointers t = some ifd) : ifd ∈ ifdKinds := by
  unfold exifIFDPointers at h
  split at h
  · cases h
    simp [ifdKinds]
  · split at h
    · cases h
      simp [ifdKinds]
    · split at h
      · cases h
        simp [ifdKinds]
      · exact Option.noConfusion h

/-! ## Walk lemmas for the EXIF value converters -/

theorem walks_doConvertValue {c : Ctx} {P : Nat → Prop} {cond : Glob → Prop}
    (hst : CondStable c P cond) (typ : Nat) (r : Rdr) :
    Walks c P cond 0 (doConvertValue typ r) := by
  unfold doConvertValue
  split
  · refine walks_bind0 hst (walks_read1r r hst) fun x => ?_
    rcases x with ⟨b, r'⟩
    exact walks_pure _
  · split
    · refine walks_bind0 hst (walks_read2r r hst) fun x => ?_
      rcases x with ⟨v, r'⟩
      exact walks_pure _
    · split
      · refine walks_bind0 hst (walks_read4r r hst) fun x => ?_
        rcases x with ⟨v, r'⟩
        exact walks_pure _
      · split
        · refine walks_bind0 hst (walks_read4r r hst) fun x => ?_
          rcases x with ⟨n, r1⟩
          refine walks_bind0 hst (walks_read4r r1 hst) fun y => ?_
          rcases y with ⟨d, r2⟩
          dsimp only
          split
          · exact walks_pure _
          · split
            · exact walks_pure _
            · exact walks_bind0 hst walks_warn fun _ => walks_pure _
        · split
          · refine walks_bind0 hst (walks_read4sr r hst) fun x => ?_
            rcases x with ⟨v, r'⟩
            exact walks_pure _
          · split
            · refine walks_bind0 hst (walks_read4sr r hst) fun x => ?_
              rcases x with ⟨n, r1⟩
              refine walks_bind0 hst (walks_read4sr r1 hst) fun y => ?_
              rcases y with ⟨d, r2⟩
              dsimp only
              split
              · exact walks_pure _
              · exact walks_bind0 hst walks_warn fun _ => walks_pure _
            · split
              · refine walks_bind0 hst (walks_read4r r hst) fun x => ?_
                rcases x with ⟨v, r'⟩
                exact walks_pure _
              · split
                · refine walks_bind0 hst (walks_read8r r hst) fun x => ?_
                  rcases x with ⟨v, r'⟩
                  exact walks_pure _
                · exact walks_pure _

theorem walks_convertValue {c : Ctx} {P : Nat → Prop} {cond : Glob → Prop}
    (hst : CondStable c P cond) (typ : Nat) (r : Rdr) :
    Walks c P cond 0 (convertValue typ r) := by
  unfold convertValue
  refine walks_bind0 hst (walks_doConvertValue hst typ r) fun x => ?_
  rcases x with ⟨v, r'⟩
  cases v <;> exact walks_pure _

theorem walks_convertValuesLoop {c : Ctx} {P : Nat → Prop} {cond : Glob → Prop}
    (hst : CondStable c P cond) (typ : Nat) :
    ∀ (k : Nat) (r : Rdr), Walks c P cond 0 (convertValuesLoop typ k r) := by
  intro k
  induction k with
  | zero =>
      intro r
      exact walks_pure _
  | succ k ih =>
      intro r
      refine walks_bind0 hst (walks_convertValue hst typ r) fun x => ?_
      rcases x with ⟨v, r'⟩
      refine walks_bind0 hst (ih r') fun y => ?_
      rcases y with ⟨vs, r''⟩
      exact walks_pure _

theorem walks_convertValues {c : Ctx} {P : Nat → Prop} {cond : Glob → Prop}
    (hst : CondStable c P cond) (typ count len : Nat) (r : Rdr) :
    Walks c P cond 0 (convertValues typ count len r) := by
  unfold convertValues
  split
  · exact walks_pure _
  · split
    · refine walks_bind0 hst (walks_readBytesFromRVolatile len r hst)
        fun x => ?_
      rcases x with ⟨b, r'⟩
      exact walks_pure _
    · split
      · exact walks_convertValue hst typ r
      · refine walks_bind0 hst (walks_convertValuesLoop hst typ count r)
          fun x => ?_
        rcases x with ⟨values, r'⟩
        dsimp only
        split
        · exact walks_pure _
        · exact walks_pure _

theorem walks_exifReadVal {c : Ctx} {P : Nat → Prop} {cond : Glob → Prop}
    (hst : CondStable c P cond) (dataType count valLen : Nat) :
    Walks c P cond 0 (exifReadVal c dataType count valLen) := by
  unfold exifReadVal
  split
  · refine walks_bind0 hst (walks_read4 hst) fun valueOffset => ?_
    refine walks_preservePos ?_
    refine walks_bind0 hst walks_getSR fun s => ?_
    dsimp only
    refine walks_bind0 hst (walks_seek _) fun _ => ?_
    refine walks_bind0 hst (walks_bufferedReader _) fun sub => ?_
    refine walks_bind0 hst (walks_convertValues hst _ _ _ _) fun x => ?_
    rcases x with ⟨v, r'⟩
    exact walks_pure _
  · refine walks_bind0 hst (walks_convertValues hst _ _ _ _) fun x => ?_
    rcases x with ⟨v, r'⟩
    dsimp only
    split
    · exact walks_bind0 hst (walks_skip _) fun _ => walks_pure _
    · exact walks_pure _

theorem walks_exifThumbAdjust {c : Ctx} {P : Nat → Prop} {cond : Glob → Prop}
    (hst : CondStable c P cond) (tagName : String) (val : Val) :
    Walks c P cond 0 (exifThumbAdjust c tagName val) := by
  unfold exifThumbAdjust
  split
  · split
    all_goals first
      | exact walks_bind0 hst walks_getSR fun s => walks_pure _
      | exact walks_mPanic (by simp)
  · exact walks_pure _

theorem walks_exifDecodeXMPAt {c : Ctx} {P : Nat → Prop} {cond : Glob → Prop}
    (hst : CondStable c P cond) (hPx : P XMP) (valLen : Nat) :
    Walks c P cond 0 (exifDecodeXMPAt c valLen) := by
  unfold exifDecodeXMPAt
  refine walks_bind0 hst (walks_read4 hst) fun valueOffset => ?_
  refine walks_preservePos ?_
  refine walks_bind0 hst walks_getSR fun s => ?_
  dsimp only
  refine walks_bind0 hst (walks_seek _) fun _ => ?_
  refine walks_bind0 hst (walks_bufferedReader _) fun sub => ?_
  exact walks_decodeXMP hst hPx _

theorem walks_exifDecodeIPTCAt {c : Ctx} {P : Nat → Prop} {cond : Glob → Prop}
    (hst : CondStable c P cond) (hPi : P IPTC)
    (hord : ∀ l, (c.mapOrd l).Perm l) (valLen : Nat) :
    Walks c P cond 0 (exifDecodeIPTCAt c valLen) := by
  unfold exifDecodeIPTCAt
  refine walks_bind0 hst (walks_read4 hst) fun valueOffset => ?_
  refine walks_preservePos ?_
  refine walks_bind0 hst walks_getSR fun s => ?_
  dsimp only
  refine walks_bind0 hst (walks_seek _) fun _ => ?_
  refine walks_bind0 hst (walks_bufferedReader _) fun sub => ?_
  exact walks_decodeRecords hst hPi hord _

/-! ## Walk lemmas for `decodeTag` and the IFD descent -/

/-- The body of `decodeTag` for a non-pointer tag: one completed
`ShouldHandleTag` funds the one delivery; every emitted tag's source
passed its own source-mask guard. -/
theorem walks_decodeTagBody_none {c : Ctx} {P : Nat → Prop}
    {cond : Glob → Prop} (hst : CondStable c P cond)
    (hord : ∀ l, (c.mapOrd l).Perm l)
    (hPe : sourceHas c.opts.sources EXIF = true → P EXIF)
    (hPx : sourceHas c.opts.sources XMP = true → P XMP)
    (hPi : sourceHas c.opts.sources IPTC = true → P IPTC)
    (below : String → Int → M Unit) (ns : String)
    (tagID dataType count : Nat) (tagName : String) :
    Walks c P cond 0
      (decodeTagBodyW c below ns tagID dataType count tagName none) := by
  unfold decodeTagBodyW
  split
  · exact walks_mErr _
  · split
    · split
      · exact walks_skip _
      · rename_i hxmp
        exact walks_exifDecodeXMPAt hst (hPx (not_not.mp hxmp)) _
    · split
      · split
        · exact walks_skip _
        · rename_i hiptc
          exact walks_exifDecodeIPTCAt hst (hPi (not_not.mp hiptc)) hord _
      · split
        · exact walks_skip _
        · rename_i hguard
          have hex : sourceHas c.opts.sources EXIF = true :=
            not_not.mp (not_or.mp hguard).1
          simp only [Option.isNone_none, if_true]
          refine walks_shtBind _ hst fun proceed => ?_
          split
          · exact walks_mono (walks_skip _) (fun _ h => h) (by omega)
          · refine walks_bind0 hst (walks_exifReadVal hst _ _ _) fun val => ?_
            dsimp only
            refine walks_bind0 hst (walks_exifThumbAdjust hst _ _) fun val2 => ?_
            show Walks c P cond (1 + 0) _
            refine walks_bind hst (walks_handleTagW _ (hPe hex)) fun a => ?_
            cases a with
            | none => exact walks_pure _
            | some er => exact walks_mErr er

/-- The body of `decodeTag` for a pointer tag: no delivery of the
pointer value; the only emissions come from the one descent. -/
theorem walks_decodeTagBody_some {c : Ctx} {P : Nat → Prop}
    {cond : Glob → Prop} (hst : CondStable c P cond)
    (hord : ∀ l, (c.mapOrd l).Perm l)
    (hPx : sourceHas c.opts.sources XMP = true → P XMP)
    (hPi : sourceHas c.opts.sources IPTC = true → P IPTC)
    {below : String → Int → M Unit}
    (hbelow : ∀ ns off, Walks c P cond 0 (below ns off)) (ns : String)
    (tagID dataType count : Nat) (tagName : String) (ifd : String) :
    Walks c P cond 0
      (decodeTagBodyW c below ns tagID dataType count tagName (some ifd)) := by
  unfold decodeTagBodyW
  split
  · exact walks_mErr _
  · split
    · split
      · exact walks_skip _
      · rename_i hxmp
        exact walks_exifDecodeXMPAt hst (hPx (not_not.mp hxmp)) _
    · split
      · split
        · exact walks_skip _
        · rename_i hiptc
          exact walks_exifDecodeIPTCAt hst (hPi (not_not.mp hiptc)) hord _
      · split
        · exact walks_skip _
        · simp only [Option.isNone_some, Bool.false_eq_true, if_false]
          refine walks_bind0 hst (walks_pure true) fun proceed => ?_
          split
          · exact walks_skip _
          · refine walks_bind0 hst (walks_exifReadVal hst _ _ _) fun val => ?_
            dsimp only
            split
            all_goals first
              | exact hbelow _ _
              | exact walks_mErr _

/-- The visited-set check of `decodeTag` for a pointer tag: the seen
branch is a no-op; the unseen branch registers the kind (strictly
shrinking the unseen count, so one fuel level is freed for the body)
and runs the body. -/
theorem walks_seenCheck {c : Ctx} {P : Nat → Prop} {n : Nat} {ifd : String}
    (hifd : ifd ∈ ifdKinds) {body : M Unit}
    (hbody : Walks c P (condU n) 0 body) :
    Walks c P (condU (n + 1)) 0
      (getGlob >>= fun g =>
        if ifd ∈ g.seenIFDs then pure ()
        else
          (modifyGlob fun g0 =>
            { g0 with
                seenIFDs := g0.seenIFDs ++ [ifd],
                events := g0.events ++ [.enterIFD ifd] }) >>= fun _ =>
            body) := by
  intro s g
  by_cases hseen : ifd ∈ g.seenIFDs
  · have hev : (getGlob >>= fun g =>
        if ifd ∈ g.seenIFDs then pure ()
        else
          (modifyGlob fun g0 =>
            { g0 with
                seenIFDs := g0.seenIFDs ++ [ifd],
                events := g0.events ++ [.enterIFD ifd] }) >>= fun _ =>
            body) s g = (s, g, Res.ok ()) := by
      show (mBind getGlob _) s g = _
      unfold mBind getGlob
      dsimp only
      rw [if_pos hseen]
      rfl
    rw [hev]
    exact ⟨gStep_same rfl rfl rfl, fun _ h => Res.noConfusion h⟩
  · have hev : (getGlob >>= fun g =>
        if ifd ∈ g.seenIFDs then pure ()
        else
          (modifyGlob fun g0 =>
            { g0 with
                seenIFDs := g0.seenIFDs ++ [ifd],
                events := g0.events ++ [.enterIFD ifd] }) >>= fun _ =>
            body) s g
        = body s { g with
            seenIFDs := g.seenIFDs ++ [ifd],
            events := g.events ++ [.enterIFD ifd] } := by
      show (mBind getGlob _) s g = _
      unfold mBind getGlob
      dsimp only
      rw [if_neg hseen]
      rfl
    rw [hev]
    have hstep : GStep c P 0 g { g with
        seenIFDs := g.seenIFDs ++ [ifd],
        events := g.events ++ [.enterIFD ifd] } := by
      refine ⟨le_refl _, ⟨[ifd], rfl⟩,
        ⟨[.enterIFD ifd], rfl, ?_, ?_, ?_, ?_, ?_⟩⟩
      · intro ti hti
        simp [tagsOf] at hti
      · simp only [tagsOf, List.length_nil]
        omega
      · intro k hk
        simp only [countEnter]
        have : ifd ≠ k := fun h => hseen (h ▸ hk)
        simp [this]
      · intro k
        simp only [countEnter]
        split <;> simp
      · intro k hk
        simp only [countEnter] at hk
        by_cases hik : ifd = k
        · subst hik
          exact List.mem_append_right _ (by simp)
        · simp [hik] at hk
    have hb := hbody s { g with
        seenIFDs := g.seenIFDs ++ [ifd],
        events := g.events ++ [.enterIFD ifd] }
    refine ⟨hstep.trans hb.1, fun hc => hb.2 ?_⟩
    have hlt := unseenCount_insert_lt hifd hseen
    unfold condU at hc ⊢
    omega

/-- `decodeTag` at one fuel level: the visited-set gate frees one fuel
level for the descent, and the tag count funds at most one delivery. -/
theorem walks_decodeTagW {c : Ctx} {P : Nat → Prop} {n : Nat}
    (hord : ∀ l, (c.mapOrd l).Perm l)
    (hPe : sourceHas c.opts.sources EXIF = true → P EXIF)
    (hPx : sourceHas c.opts.sources XMP = true → P XMP)
    (hPi : sourceHas c.opts.sources IPTC = true → P IPTC)
    {below : String → Int → M Unit}
    (hbelow : ∀ ns off, Walks c P (condU n) 0 (below ns off)) (ns : String) :
    Walks c P (condU (n + 1)) 0 (decodeTagW c below ns) := by
  have hst1 : CondStable c P (condU (n + 1)) := condU_stable c P (n + 1)
  have hstn : CondStable c P (condU n) := condU_stable c P n
  unfold decodeTagW
  refine walks_bind0 hst1 (walks_read2 hst1) fun tagID => ?_
  refine walks_bind0 hst1 (walks_read2 hst1) fun dataType => ?_
  refine walks_bind0 hst1 (walks_read4 hst1) fun count => ?_
  split
  · exact walks_skip _
  · dsimp only
    split
    · rename_i ifd heq
      exact walks_seenCheck (exifIFDPointers_mem heq)
        (walks_decodeTagBody_some hstn hord hPx hPi hbelow ns _ _ _ _ ifd)
    · exact walks_decodeTagBody_none hst1 hord hPe hPx hPi below ns _ _ _ _

/-- The entry loop of `decodeTags` at one fuel level. -/
theorem walks_decodeTagsLoopW {c : Ctx} {P : Nat → Prop} {n : Nat}
    (hord : ∀ l, (c.mapOrd l).Perm l)
    (hPe : sourceHas c.opts.sources EXIF = true → P EXIF)
    (hPx : sourceHas c.opts.sources XMP = true → P XMP)
    (hPi : sourceHas c.opts.sources IPTC = true → P IPTC)
    {below : String → Int → M Unit}
    (hbelow : ∀ ns off, Walks c P (condU n) 0 (below ns off)) (ns : String) :
    ∀ k : Nat, Walks c P (condU (n + 1)) 0 (decodeTagsLoopW c below ns k) := by
  intro k
  induction k with
  | zero => exact walks_pure _
  | succ k ih =>
      exact walks_bind0 (condU_stable c P (n + 1))
        (walks_decodeTagW hord hPe hPx hPi hbelow ns) fun _ => ih

/-- `decodeTags` at one fuel level. -/
theorem walks_decodeTagsW {c : Ctx} {P : Nat → Prop} {n : Nat}
    (hord : ∀ l, (c.mapOrd l).Perm l)
    (hPe : sourceHas c.opts.sources EXIF = true → P EXIF)
    (hPx : sourceHas c.opts.sources XMP = true → P XMP)
    (hPi : sourceHas c.opts.sources IPTC = true → P IPTC)
    {below : String → Int → M Unit}
    (hbelow : ∀ ns off, Walks c P (condU n) 0 (below ns off)) (ns : String) :
    Walks c P (condU (n + 1)) 0 (decodeTagsW c below ns) := by
  unfold decodeTagsW
  exact walks_bind0 (condU_stable c P (n + 1))
    (walks_read2 (condU_stable c P (n + 1))) fun numTags =>
      walks_decodeTagsLoopW hord hPe hPx hPi hbelow ns numTags

/-- `decodeTagsAt` at one fuel level. -/
theorem walks_decodeTagsAtW {c : Ctx} {P : Nat → Prop} {n : Nat}
    (hord : ∀ l, (c.mapOrd l).Perm l)
    (hPe : sourceHas c.opts.sources EXIF = true → P EXIF)
    (hPx : sourceHas c.opts.sources XMP = true → P XMP)
    (hPi : sourceHas c.opts.sources IPTC = true → P IPTC)
    {below : String → Int → M Unit}
    (hbelow : ∀ ns off, Walks c P (condU n) 0 (below ns off))
    (ns : String) (offset : Int) :
    Walks c P (condU (n + 1)) 0 (decodeTagsAtW c below ns offset) := by
  unfold decodeTagsAtW
  refine walks_preservePos ?_
  refine walks_bind0 (condU_stable c P (n + 1)) walks_getSR fun s => ?_
  refine walks_bind0 (condU_stable c P (n + 1)) (walks_seek _) fun _ => ?_
  exact walks_decodeTagsW hord hPe hPx hPi hbelow ns

/-- The descent continuation at every fuel level: with strictly more
fuel than unseen pointer kinds, the fuel sentinel is unreachable. -/
theorem walks_atLevel {c : Ctx} {P : Nat → Prop}
    (hord : ∀ l, (c.mapOrd l).Perm l)
    (hPe : sourceHas c.opts.sources EXIF = true → P EXIF)
    (hPx : sourceHas c.opts.sources XMP = true → P XMP)
    (hPi : sourceHas c.opts.sources IPTC = true → P IPTC) :
    ∀ (n : Nat) (ns : String) (off : Int),
      Walks c P (condU n) 0 (atLevel c n ns off) := by
  intro n
  induction n with
  | zero =>
      intro ns off s g
      refine ⟨gStep_same rfl rfl rfl, fun hc _ => ?_⟩
      unfold condU at hc
      omega
  | succ n ih =>
      intro ns off
      exact walks_decodeTagsAtW hord hPe hPx hPi ih ns off

/-- `decodeTags` at the given fuel. -/
theorem walks_decodeTags {c : Ctx} {P : Nat → Prop}
    (hord : ∀ l, (c.mapOrd l).Perm l)
    (hPe : sourceHas c.opts.sources EXIF = true → P EXIF)
    (hPx : sourceHas c.opts.sources XMP = true → P XMP)
    (hPi : sourceHas c.opts.sources IPTC = true → P IPTC)
    (fuel : Nat) (ns : String) :
    Walks c P (condU (fuel + 1)) 0 (decodeTags c fuel ns) :=
  walks_decodeTagsW hord hPe hPx hPi
    (fun ns' off => walks_atLevel hord hPe hPx hPi fuel ns' off) ns

/-- `metaDecoderEXIF.decode` at the given fuel. -/
theorem walks_exifDecode {c : Ctx} {P : Nat → Prop}
    (hord : ∀ l, (c.mapOrd l).Perm l)
    (hPe : sourceHas c.opts.sources EXIF = true → P EXIF)
    (hPx : sourceHas c.opts.sources XMP = true → P XMP)
    (hPi : sourceHas c.opts.sources IPTC = true → P IPTC)
    (fuel : Nat) :
    Walks c P (condU (fuel + 1)) 0 (exifDecode c fuel) := by
  have hst : CondStable c P (condU (fuel + 1)) := condU_stable c P (fuel + 1)
  unfold exifDecode
  refine walks_bind0 hst (walks_modifySR _) fun _ => ?_
  refine walks_bind0 hst (walks_read2 hst) fun byteOrderTag => ?_
  split
  · refine walks_bind0 hst (walks_modifySR _) fun _ => ?_
    refine walks_bind0 hst (walks_skip _) fun _ => ?_
    refine walks_bind0 hst (walks_read4 hst) fun ifd0Offset => ?_
    split
    · exact walks_pure _
    · refine walks_bind0 hst (walks_skip _) fun _ => ?_
      refine walks_bind0 hst (walks_decodeTags hord hPe hPx hPi fuel _)
        fun _ => ?_
      refine walks_bind0 hst (walks_read4 hst) fun ifd1Offset => ?_
      split
      · exact walks_pure _
      · refine walks_bind0 hst walks_getSR fun s => ?_
        refine walks_bind0 hst (walks_seek _) fun _ => ?_
        exact walks_decodeTags hord hPe hPx hPi fuel _
  · exact walks_pure _

/-- The CONFIG pre-scan loop is a zero-credit walk. -/
theorem walks_tifConfigLoop {c : Ctx} {P : Nat → Prop} {cond : Glob → Prop}
    (hst : CondStable c P cond) :
    ∀ (k w h : Nat), Walks c P cond 0 (tifConfigLoop k w h) := by
  intro k
  induction k with
  | zero =>
      intro w h
      exact walks_pure _
  | succ k ih =>
      intro w h
      refine walks_bind0 hst (walks_read2 hst) fun tagID => ?_
      refine walks_bind0 hst (walks_read2 hst) fun dataType => ?_
      refine walks_bind0 hst (walks_read4 hst) fun count => ?_
      dsimp only
      repeat' split
      all_goals first
        | exact walks_bind0 hst (walks_skip _) fun _ => ih _ _
        | (refine walks_bind0 hst (walks_read2 hst) fun v => ?_
           refine walks_bind0 hst (walks_skip _) fun _ => ?_
           refine walks_bind0 hst (walks_pure _) fun y => ?_
           dsimp only
           repeat' split
           all_goals first
             | exact walks_pure _
             | exact ih _ _)
        | (refine walks_bind0 hst (walks_read4 hst) fun y => ?_
           dsimp only
           repeat' split
           all_goals first
             | exact walks_pure _
             | exact ih _ _)

/-- `imageDecoderTIF.decode` at the given fuel. -/
theorem walks_tifDecode {c : Ctx} {P : Nat → Prop}
    (hord : ∀ l, (c.mapOrd l).Perm l)
    (hPe : sourceHas c.opts.sources EXIF = true → P EXIF)
    (hPx : sourceHas c.opts.sources XMP = true → P XMP)
    (hPi : sourceHas c.opts.sources IPTC = true → P IPTC)
    (fuel : Nat) :
    Walks c P (condU (fuel + 1)) 0 (tifDecode c fuel) := by
  have hst : CondStable c P (condU (fuel + 1)) := condU_stable c P (fuel + 1)
  unfold tifDecode
  refine walks_bind0 hst (walks_read2 hst) fun byteOrderTag => ?_
  split
  · refine walks_bind0 hst (walks_modifySR _) fun _ => ?_
    refine walks_bind0 hst (walks_read2 hst) fun id => ?_
    split
    · exact walks_mErr _
    · refine walks_bind0 hst (walks_read4 hst) fun ifdOffset => ?_
      split
      · exact walks_mErr _
      · refine walks_bind0 hst (walks_skip _) fun _ => ?_
        split
        · refine walks_bind0 hst walks_getPos fun ifdPos => ?_
          refine walks_bind0 hst (walks_read2 hst) fun numTags => ?_
          refine walks_bind0 hst (walks_tifConfigLoop hst numTags 0 0)
            fun wh => ?_
          rcases wh with ⟨w, h⟩
          dsimp only
          refine walks_bind0 hst ?_ fun _ => ?_
          · intro s g
            exact ⟨gStep_same rfl rfl rfl, fun _ h => Res.noConfusion h⟩
          · split
            · exact walks_pure _
            · refine walks_bind0 hst (walks_seek _) fun _ => ?_
              exact walks_decodeTags hord hPe hPx hPi fuel _
        · exact walks_decodeTags hord hPe hPx hPi fuel _
  · exact walks_mErr _

/-! ## Run-level extraction helpers -/

/-- The tag bound of a zero-credit walk started at the fresh global
state. -/
theorem trace_bound {c : Ctx} {P : Nat → Prop} {cond : Glob → Prop}
    {m : M Unit} (h : Walks c P cond 0 m) (s : SR) :
    (tagsOf ((m s Glob.mk0).2.1.events)).length ≤ c.opts.limitNumTags := by
  obtain ⟨new, he, _hs, hc, _, _, _⟩ := ((h s Glob.mk0).1).evs
  have he' : (m s Glob.mk0).2.1.events = new := by
    rw [he]
    show Glob.mk0.events ++ new = new
    simp [Glob.mk0]
  rw [he']
  have h0 : Glob.mk0.tagCount = 0 := rfl
  rw [h0] at hc
  have hle := Nat.min_le_right ((m s Glob.mk0).2.1.tagCount) c.opts.limitNumTags
  omega

/-- The source property of a zero-credit walk started at the fresh
global state. -/
theorem trace_src {c : Ctx} {P : Nat → Prop} {cond : Glob → Prop}
    {m : M Unit} (h : Walks c P cond 0 m) (s : SR) :
    ∀ ti ∈ tagsOf ((m s Glob.mk0).2.1.events), P ti.source := by
  obtain ⟨new, he, hs, _, _, _, _⟩ := ((h s Glob.mk0).1).evs
  have he' : (m s Glob.mk0).2.1.events = new := by
    rw [he]
    show Glob.mk0.events ++ new = new
    simp [Glob.mk0]
  rw [he']
  exact hs

/-- The per-kind visit bound of a zero-credit walk started at the
fresh global state. -/
theorem trace_enter {c : Ctx} {P : Nat → Prop} {cond : Glob → Prop}
    {m : M Unit} (h : Walks c P cond 0 m) (s : SR) (k : String) :
    countEnter k ((m s Glob.mk0).2.1.events) ≤ 1 := by
  obtain ⟨new, he, _, _, _, hl, _⟩ := ((h s Glob.mk0).1).evs
  have he' : (m s Glob.mk0).2.1.events = new := by
    rw [he]
    show Glob.mk0.events ++ new = new
    simp [Glob.mk0]
  rw [he']
  exact hl k

/-! ## Glob-preservation of the plain reads -/

/-- A computation that can only change the stream state. -/
def SROnly {α : Type} (m : M α) : Prop := ∀ s g, (m s g).2.1 = g

theorem srOnly_bind {α β : Type} {m : M α} {f : α → M β}
    (hm : SROnly m) (hf : ∀ a, SROnly (f a)) : SROnly (m >>= f) := by
  intro s g
  show ((mBind m f) s g).2.1 = g
  unfold mBind
  rcases hr : m s g with ⟨s', g', r⟩
  have hg' : g' = g := by
    have h0 := hm s g
    rw [hr] at h0
    exact h0
  cases r with
  | ok a =>
      dsimp only
      rw [hg']
      exact hf a s' g
  | err e => exact hg'
  | panic e => exact hg'

theorem srOnly_stop (e : GoError) : SROnly (stop e) := by
  intro s g
  unfold stop
  split <;> rfl

theorem srOnly_readNIntoBufE (n : Nat) : SROnly (readNIntoBufE n) := by
  unfold readNIntoBufE
  refine srOnly_bind (fun s g => rfl) fun _ => ?_
  intro s g
  dsimp only
  repeat' split
  all_goals rfl

theorem srOnly_readNIntoBuf (n : Nat) : SROnly (readNIntoBuf n) := by
  unfold readNIntoBuf
  refine srOnly_bind (srOnly_readNIntoBufE n) fun a => ?_
  cases a with
  | none => exact fun s g => rfl
  | some e => exact srOnly_stop e

theorem srOnly_read1 : SROnly read1 := by
  unfold read1
  exact srOnly_bind (srOnly_readNIntoBuf 1) fun _ =>
    srOnly_bind (fun s g => rfl) fun _ => fun s g => rfl

theorem srOnly_read2 : SROnly read2 := by
  unfold read2
  exact srOnly_bind (srOnly_readNIntoBuf 2) fun _ =>
    srOnly_bind (fun s g => rfl) fun _ => fun s g => rfl

/-! ## The exact flush trace under a non-erroring callback -/

theorem flushLoop_trace {c : Ctx} (hh : ∀ ti, c.opts.handleTag ti = none) :
    ∀ (l : SlicesMap) (s : SR) (g : Glob),
      flushLoop c l s g =
        (s, { g with events := g.events ++
          (l.map fun p => .tag { p.1 with value := flushVal p.2 }) },
          Res.ok ()) := by
  intro l
  induction l with
  | nil =>
      intro s g
      show (s, g, Res.ok ()) = _
      rw [List.map_nil, List.append_nil]
  | cons p rest ih =>
      intro s g
      rcases p with ⟨ti, values⟩
      have hstep : flushLoop c ((ti, values) :: rest) s g =
          flushLoop c rest s
            { g with events := g.events ++
              [.tag { ti with value := flushVal values }] } := by
        show (mBind (handleTagW c { ti with value := flushVal values })
          (fun r => match r with
            | some er => mErr er
            | none => flushLoop c rest)) s g =
          flushLoop c rest s
            { g with events := g.events ++
              [.tag { ti with value := flushVal values }] }
        unfold mBind handleTagW
        dsimp only
        rw [hh]
      rw [hstep, ih]
      dsimp only
      simp only [List.map_cons, List.append_assoc, List.singleton_append]

theorem handlestringSlices_trace {c : Ctx}
    (hh : ∀ ti, c.opts.handleTag ti = none) (m : SlicesMap) (s : SR)
    (g : Glob) :
    handlestringSlices c m s g =
      (s, { g with events := g.events ++
        (if m.isEmpty = true then [] else (c.mapOrd m).map
          fun p => .tag { p.1 with value := flushVal p.2 }) },
        Res.ok ()) := by
  unfold handlestringSlices
  split
  · rw [List.append_nil]
    rfl
  · exact flushLoop_trace hh _ _ _

/-! ## Claim theorems -/

/-- C1: during one TIFF `Decode` run the `HandleTag` callback is
invoked at most `LimitNumTags` times (quantified over every oracle,
option set, map iteration order and input); the counting wrapper
aborts the walk with the `ErrStopWalking` panic as soon as the
incremented count exceeds the limit; the pipeline maps every run
outcome through `errFinal ∘ errRawOf`; and that mapping turns the
stop-walking sentinel into a nil error for the caller. -/
theorem C1_callback_limit :
    (∀ (ora : Ora) (uo : UserOpts) (mapOrd : SlicesMap → SlicesMap)
        (data : List Nat), (∀ l, (mapOrd l).Perm l) →
      (tagsOf (decodeTIFF ora uo mapOrd data).1.events).length ≤
        (effectiveOpts uo (tiffSourceSet uo.sources)).limitNumTags) ∧
    (∀ (c : Ctx) (ti : TagInfo) (s : SR) (g : Glob),
        g.tagCount + 1 > c.opts.limitNumTags →
      shouldHandleTagW c ti s g =
        (s, { g with tagCount := g.tagCount + 1 }, Res.panic .stopWalking)) ∧
    (∀ (ora : Ora) (uo : UserOpts) (mapOrd : SlicesMap → SlicesMap)
        (data : List Nat) (s' : SR) (g' : Glob) (r : Res Unit),
        tiffSourceSet uo.sources ≠ 0 →
        tifDecode (tiffCtx ora uo mapOrd) 4 (SR.mk0 data true) Glob.mk0 =
          (s', g', r) →
      (decodeTIFF ora uo mapOrd data).2 = errFinal s'.readErr (errRawOf r)) ∧
    (∀ se : Option GoError,
      errFinal se (errRawOf (Res.panic .stopWalking)) = none) := by
  refine ⟨?_, ?_, ?_, ?_⟩
  · intro ora uo mapOrd data hord
    unfold decodeTIFF
    split
    · simp [Glob.mk0, tagsOf]
    · have hw : Walks (tiffCtx ora uo mapOrd) (fun _ => True) (condU 5) 0
          (tifDecode (tiffCtx ora uo mapOrd) 4) :=
        walks_tifDecode hord (fun _ => trivial) (fun _ => trivial)
          (fun _ => trivial) 4
      have hb := trace_bound hw (SR.mk0 data true)
      dsimp only
      exact hb
  · intro c ti s g h
    unfold shouldHandleTagW
    rw [if_pos h]
  · intro ora uo mapOrd data s' g' r hss hrun
    unfold decodeTIFF
    rw [if_neg hss, hrun]
  · intro se
    rfl

/-- C1 witness: the four parts at concrete inputs — the limit-one
EXIF options, the two-entry TIFF `dataW`, and the run outcome
instantiated by its own projections. -/
theorem C1_callback_limit_witness :
    ((tagsOf (decodeTIFF oraTriv uoW id dataW).1.events).length ≤
      (effectiveOpts uoW (tiffSourceSet uoW.sources)).limitNumTags) ∧
    (shouldHandleTagW cTriv
        { source := 1, tag := "", nspace := "", value := .vnil }
        (SR.mk0 [] true) { Glob.mk0 with tagCount := 5000 } =
      (SR.mk0 [] true, { Glob.mk0 with tagCount := 5000 + 1 },
        Res.panic .stopWalking)) ∧
    ((decodeTIFF oraW uoW id []).2 =
      errFinal
        (tifDecode (tiffCtx oraW uoW id) 4 (SR.mk0 [] true)
          Glob.mk0).1.readErr
        (errRawOf
          (tifDecode (tiffCtx oraW uoW id) 4 (SR.mk0 [] true)
            Glob.mk0).2.2)) ∧
    (errFinal none (errRawOf (Res.panic .stopWalking)) = none) :=
  ⟨C1_callback_limit.1 oraTriv uoW id dataW (fun l => List.Perm.refl l),
    C1_callback_limit.2.1 cTriv _ (SR.mk0 [] true)
      { Glob.mk0 with tagCount := 5000 } (by decide),
    C1_callback_limit.2.2.1 oraW uoW id [] _ _ _ (by decide) rfl,
    C1_callback_limit.2.2.2 none⟩

/-- C2: every tag delivered by a TIFF `Decode` run has a source inside
the effective mask (the per-format allowed mask intersected with the
caller's), and an empty intersection returns success immediately with
an empty trace. -/
theorem C2_source_mask :
    (∀ (ora : Ora) (uo : UserOpts) (mapOrd : SlicesMap → SlicesMap)
        (data : List Nat), (∀ l, (mapOrd l).Perm l) →
      ∀ ti ∈ tagsOf (decodeTIFF ora uo mapOrd data).1.events,
        sourceHas (tiffSourceSet uo.sources) ti.source = true) ∧
    (∀ (ora : Ora) (uo : UserOpts) (mapOrd : SlicesMap → SlicesMap)
        (data : List Nat), tiffSourceSet uo.sources = 0 →
      decodeTIFF ora uo mapOrd data = (Glob.mk0, none)) := by
  constructor
  · intro ora uo mapOrd data hord
    unfold decodeTIFF
    split
    · intro ti hti
      simp [Glob.mk0, tagsOf] at hti
    · have hw : Walks (tiffCtx ora uo mapOrd)
          (fun src => sourceHas (tiffSourceSet uo.sources) src = true)
          (condU 5) 0 (tifDecode (tiffCtx ora uo mapOrd) 4) :=
        walks_tifDecode hord (fun h => h) (fun h => h) (fun h => h) 4
      have hb := trace_src hw (SR.mk0 data true)
      dsimp only
      exact hb
  · intro ora uo mapOrd data h
    unfold decodeTIFF
    rw [if_pos h]

/-- C2 witness: the mask property and the empty-mask short cut at
concrete inputs (`uo0` asks for nothing that the TIFF mask excludes;
sources `CONFIG`-complement 0 gives mask 0 via `uoCONFIGless`). -/
theorem C2_source_mask_witness :
    (∀ ti ∈ tagsOf (decodeTIFF oraTriv uoW id dataW).1.events,
      sourceHas (tiffSourceSet uoW.sources) ti.source = true) ∧
    decodeTIFF oraTriv
      { uo0 with sources := 16 } id dataW = (Glob.mk0, none) :=
  ⟨C2_source_mask.1 oraTriv uoW id dataW (fun l => List.Perm.refl l),
   C2_source_mask.2 oraTriv { uo0 with sources := 16 } id dataW (by decide)⟩

/-- C6: during one EXIF decode pass from the fresh decoder state each
pointed-to IFD kind is registered (and hence entered) at most once,
and the fuel-4 embedding of the recursive walk never reaches its fuel
sentinel on any input and any starting state — the recursion depth is
bounded by the visited-kind gate. -/
theorem C6_visited_once :
    (∀ (c : Ctx), (∀ l, (c.mapOrd l).Perm l) →
      ∀ (s : SR) (k : String),
        countEnter k ((exifDecode c 4 s Glob.mk0).2.1.events) ≤ 1) ∧
    (∀ (c : Ctx), (∀ l, (c.mapOrd l).Perm l) →
      ∀ (s : SR) (g : Glob),
        (exifDecode c 4 s g).2.2 ≠ Res.panic .fuelExhausted) := by
  constructor
  · intro c hord s k
    have hw : Walks c (fun _ => True) (condU 5) 0 (exifDecode c 4) :=
      walks_exifDecode hord (fun _ => trivial) (fun _ => trivial)
        (fun _ => trivial) 4
    exact trace_enter hw s k
  · intro c hord s g
    have hw : Walks c (fun _ => True) (condU 5) 0 (exifDecode c 4) :=
      walks_exifDecode hord (fun _ => trivial) (fun _ => trivial)
        (fun _ => trivial) 4
    refine (hw s g).2 ?_
    show unseenCount g < 5
    have := unseenCount_le_three g
    omega

/-- C6 witness: the visit bound and fuel safety at the default context
on a concrete stream. -/
theorem C6_visited_once_witness :
    countEnter "ExifIFDP"
      ((exifDecode cTriv 4 (SR.mk0 dataW true) Glob.mk0).2.1.events) ≤ 1 ∧
    (exifDecode cTriv 4 (SR.mk0 dataW true) Glob.mk0).2.2 ≠
      Res.panic .fuelExhausted :=
  ⟨C6_visited_once.1 cTriv (fun l => List.Perm.refl l) (SR.mk0 dataW true)
      "ExifIFDP",
    C6_visited_once.2 cTriv (fun l => List.Perm.refl l) (SR.mk0 dataW true)
      Glob.mk0⟩

/-- C10: every recovered panic value is converted to a non-nil error
by `errFromRecover` (nothing is re-raised), the stop sentinels are
normalized to a nil return by `errFinal`, and the TIFF `Decode`
pipeline routes every run outcome — ok, error or panic — through that
conversion, so the caller always receives a plain value. -/
theorem C10_no_panic_escape :
    (∀ pv : PanicVal, (errFromRecover (some pv)).isSome = true) ∧
    (∀ se : Option GoError,
        errFinal se (errFromRecover (some (.errVal .stopWalking))) = none ∧
        errFinal se (errFromRecover (some (.errVal .stop))) = none) ∧
    (∀ (ora : Ora) (uo : UserOpts) (mapOrd : SlicesMap → SlicesMap)
        (data : List Nat) (s' : SR) (g' : Glob) (r : Res Unit),
        tiffSourceSet uo.sources ≠ 0 →
        tifDecode (tiffCtx ora uo mapOrd) 4 (SR.mk0 data true) Glob.mk0 =
          (s', g', r) →
      decodeTIFF ora uo mapOrd data =
        (g', errFinal s'.readErr (errRawOf r))) := by
  refine ⟨?_, ?_, ?_⟩
  · intro pv
    cases pv with
    | errVal e => rfl
    | nonError => rfl
  · intro se
    exact ⟨rfl, rfl⟩
  · intro ora uo mapOrd data s' g' r hss hrun
    unfold decodeTIFF
    rw [if_neg hss, hrun]

/-- C3: a zero stored denominator yields `undef` for the unsigned
rational (TIFF type 5), but the signed rational (TIFF type 10) has no
zero-denominator check: the pair reaches `NewRat`, which rejects it,
producing a warning and the Go `int` zero — not "undef". -/
theorem C3_zero_denominator :
    (∀ (r : Rdr) (s : SR) (g : Glob) (s1 : SR) (g1 : Glob) (n : Nat)
        (r1 : Rdr) (s2 : SR) (g2 : Glob) (r2 : Rdr),
        read4r r s g = (s1, g1, .ok (n, r1)) →
        read4r r1 s1 g1 = (s2, g2, .ok (0, r2)) →
      doConvertValue 5 r s g = (s2, g2, .ok (undefV, r2))) ∧
    (∀ (r : Rdr) (s : SR) (g : Glob) (s1 : SR) (g1 : Glob) (n : Int)
        (r1 : Rdr) (s2 : SR) (g2 : Glob) (r2 : Rdr),
        read4sr r s g = (s1, g1, .ok (n, r1)) →
        read4sr r1 s1 g1 = (s2, g2, .ok ((0 : Int), r2)) →
      doConvertValue 10 r s g =
        (s2, { g2 with warns := g2.warns + 1 }, .ok (.int 0, r2))) := by
  constructor
  · intro r s g s1 g1 n r1 s2 g2 r2 h1 h2
    show (doConvertValue 5 r) s g = _
    unfold doConvertValue
    rw [if_neg (by decide), if_neg (by decide), if_neg (by decide),
      if_pos (by decide)]
    show (mBind (read4r r) _) s g = _
    unfold mBind
    rw [h1]
    dsimp only
    show (mBind (read4r r1) _) s1 g1 = _
    unfold mBind
    rw [h2]
    dsimp only
    rw [if_pos rfl]
    rfl
  · intro r s g s1 g1 n r1 s2 g2 r2 h1 h2
    show (doConvertValue 10 r) s g = _
    unfold doConvertValue
    rw [if_neg (by decide), if_neg (by decide), if_neg (by decide),
      if_neg (by decide), if_neg (by decide), if_pos (by decide)]
    show (mBind (read4sr r) _) s g = _
    unfold mBind
    rw [h1]
    dsimp only
    show (mBind (read4sr r1) _) s1 g1 = _
    unfold mBind
    rw [h2]
    dsimp only
    rw [show NewRatInt32 n 0 = none by
      unfold NewRatInt32
      rw [if_pos rfl]]
    rfl

/-- C3 counterexample: the concrete signed rational 1/0 decodes to the
Go `int` zero with a warning — not to the string "undef". -/
theorem C3_zero_denominator_counterexample :
    (doConvertValue 10 .main (SR.mk0 dataC3 true) Glob.mk0).2.2 =
      .ok (Val.int 0, Rdr.main) ∧
    (doConvertValue 10 .main (SR.mk0 dataC3 true) Glob.mk0).2.1.warns = 1 ∧
    Val.int 0 ≠ undefV := by
  refine ⟨rfl, rfl, fun h => ?_⟩
  exact Val.noConfusion h

/-- C3 witness: both branches at the concrete bytes 1/0 on the main
reader. -/
theorem C3_zero_denominator_witness :
    doConvertValue 5 .main (SR.mk0 dataC3 true) Glob.mk0 =
      ((read4r .main ((read4r .main (SR.mk0 dataC3 true) Glob.mk0).1)
          ((read4r .main (SR.mk0 dataC3 true) Glob.mk0).2.1)).1,
        (read4r .main ((read4r .main (SR.mk0 dataC3 true) Glob.mk0).1)
          ((read4r .main (SR.mk0 dataC3 true) Glob.mk0).2.1)).2.1,
        .ok (undefV, Rdr.main)) ∧
    doConvertValue 10 .main (SR.mk0 dataC3 true) Glob.mk0 =
      ((read4sr .main ((read4sr .main (SR.mk0 dataC3 true) Glob.mk0).1)
          ((read4sr .main (SR.mk0 dataC3 true) Glob.mk0).2.1)).1,
        { (read4sr .main ((read4sr .main (SR.mk0 dataC3 true) Glob.mk0).1)
            ((read4sr .main (SR.mk0 dataC3 true) Glob.mk0).2.1)).2.1 with
          warns := (read4sr .main
            ((read4sr .main (SR.mk0 dataC3 true) Glob.mk0).1)
            ((read4sr .main (SR.mk0 dataC3 true) Glob.mk0).2.1)).2.1.warns
            + 1 },
        .ok (.int 0, Rdr.main)) :=
  ⟨C3_zero_denominator.1 .main (SR.mk0 dataC3 true) Glob.mk0 _ _ 1 .main _ _
      .main rfl rfl,
    C3_zero_denominator.2 .main (SR.mk0 dataC3 true) Glob.mk0 _ _ 1 .main _ _
      .main rfl rfl⟩

/-- C5: an IFD entry whose pointer tag names an already-visited kind
returns after the 8 header bytes without consuming the 4-byte value
slot — the entry is skipped silently (no event, success), but only 8
of its 12 bytes are consumed, so every subsequent entry of the IFD is
decoded 4 bytes early. -/
theorem C5_visited_pointer_entry_size :
    ((decodeTagW cTriv (fun _ _ => pure ()) "IFD0" (SR.mk0 dataC5 true)
        { Glob.mk0 with seenIFDs := ["ExifIFDP"] }).1.pos = 8) ∧
    ((decodeTagW cTriv (fun _ _ => pure ()) "IFD0" (SR.mk0 dataC5 true)
        { Glob.mk0 with seenIFDs := ["ExifIFDP"] }).2.2 = .ok ()) ∧
    ((decodeTagW cTriv (fun _ _ => pure ()) "IFD0" (SR.mk0 dataC5 true)
        { Glob.mk0 with seenIFDs := ["ExifIFDP"] }).2.1.events = []) ∧
    ((8 : Int) ≠ 12) :=
  ⟨rfl, rfl, rfl, by decide⟩

/-- C7: the flush of accumulated repeatable IPTC fields emits exactly
one tag per entry in the map iteration order, so the callback sequence
is a deterministic function of the options, the input and that order —
and any two iteration orders that permute the insertion order yield
traces that are permutations of each other (not necessarily equal). -/
theorem C7_trace_order :
    (∀ (c : Ctx) (m : SlicesMap) (s : SR) (g : Glob),
        (∀ ti, c.opts.handleTag ti = none) →
      (handlestringSlices c m s g).2.1.events =
        g.events ++ (if m.isEmpty = true then [] else (c.mapOrd m).map
          fun p => .tag { p.1 with value := flushVal p.2 })) ∧
    (∀ (c1 c2 : Ctx) (m : SlicesMap) (s1 s2 : SR) (g : Glob),
        (∀ ti, c1.opts.handleTag ti = none) →
        (∀ ti, c2.opts.handleTag ti = none) →
        (∀ l, (c1.mapOrd l).Perm l) → (∀ l, (c2.mapOrd l).Perm l) →
      ((handlestringSlices c1 m s1 g).2.1.events).Perm
        ((handlestringSlices c2 m s2 g).2.1.events)) := by
  constructor
  · intro c m s g hh
    rw [handlestringSlices_trace hh]
  · intro c1 c2 m s1 s2 g hh1 hh2 hord1 hord2
    rw [handlestringSlices_trace hh1, handlestringSlices_trace hh2]
    dsimp only
    by_cases hm : m.isEmpty = true
    · rw [if_pos hm, if_pos hm]
    · rw [if_neg hm, if_neg hm]
      exact List.Perm.append_left _
        (((hord1 m).map _).trans ((hord2 m).map _).symm)

/-- C7 counterexample: two runs differing only in the map iteration
order — the options are identical — deliver the two accumulated
repeatable fields in different orders. -/
theorem C7_trace_order_counterexample :
    cRev.opts = cTriv.opts ∧
    ((tagsOf (handlestringSlices cTriv m7 (SR.mk0 [] true)
        Glob.mk0).2.1.events).map (fun ti => ti.tag)) = ["A", "B"] ∧
    ((tagsOf (handlestringSlices cRev m7 (SR.mk0 [] true)
        Glob.mk0).2.1.events).map (fun ti => ti.tag)) = ["B", "A"] ∧
    (["A", "B"] : List String) ≠ ["B", "A"] :=
  ⟨rfl, rfl, rfl, by decide⟩

/-- C7 witness: the trace formula and the permutation property at the
two concrete iteration orders on the two-entry map. -/
theorem C7_trace_order_witness :
    ((handlestringSlices cTriv m7 (SR.mk0 [] true) Glob.mk0).2.1.events =
      Glob.mk0.events ++ (if m7.isEmpty = true then []
        else (cTriv.mapOrd m7).map
          fun p => .tag { p.1 with value := flushVal p.2 })) ∧
    ((handlestringSlices cTriv m7 (SR.mk0 [] true) Glob.mk0).2.1.events).Perm
      ((handlestringSlices cRev m7 (SR.mk0 [] true) Glob.mk0).2.1.events) :=
  ⟨C7_trace_order.1 cTriv m7 (SR.mk0 [] true) Glob.mk0 (fun ti => rfl),
    C7_trace_order.2 cTriv cRev m7 (SR.mk0 [] true) (SR.mk0 [] true) Glob.mk0
      (fun ti => rfl) (fun ti => rfl) (fun l => List.Perm.refl l)
      (fun l => List.reverse_perm l)⟩

/-- C8: an EXIF entry whose value length exceeds `LimitTagSize` is the
4-byte skip — no event, no error, the entry loop continues; an IPTC
record whose size exceeds the (16-bit-truncated) limit skips its
payload and returns the state unchanged; and the header reads leave
the global state (trace, counter) untouched, so the skip is silent. -/
theorem C8_oversized_skip :
    (∀ (c : Ctx) (below : String → Int → M Unit) (ns : String)
        (tagID dataType count : Nat) (tagName : String)
        (ifdPtr : Option String) (size : Nat),
        tagID ≠ 0x2bc → tagID ≠ 0x83bb →
        exifTypeSize dataType = some size →
        size * count > c.opts.limitTagSize →
      decodeTagBodyW c below ns tagID dataType count tagName ifdPtr =
        skip 4) ∧
    (∀ (c : Ctx) (charset : List Nat) (m : SlicesMap) (s : SR) (g : Glob)
        (s1 : SR) (g1 : Glob) (rt : Nat) (s2 : SR) (g2 : Glob) (dn : Nat)
        (s3 : SR) (g3 : Glob) (rs : Nat),
        read1 s g = (s1, g1, .ok rt) →
        read1 s1 g1 = (s2, g2, .ok dn) →
        read2 s2 g2 = (s3, g3, .ok rs) →
        rs > c.opts.limitTagSize % 2 ^ 16 →
      decodeRecord c charset m s g =
        ((skip (rs : Int) >>= fun _ => pure (charset, m)) s3 g3)) ∧
    (∀ (s : SR) (g : Glob), (read1 s g).2.1 = g ∧ (read2 s g).2.1 = g) := by
  refine ⟨?_, ?_, ?_⟩
  · intro c below ns tagID dataType count tagName ifdPtr size h2bc h83
      hsize hbig
    unfold decodeTagBodyW
    rw [hsize]
    dsimp only
    rw [if_neg h2bc, if_neg h83, if_pos (Or.inr hbig)]
  · intro c charset m s g s1 g1 rt s2 g2 dn s3 g3 rs h1 h2 h3 hbig
    show (decodeRecord c charset m) s g = _
    unfold decodeRecord
    show (mBind read1 _) s g = _
    unfold mBind
    rw [h1]
    dsimp only
    show (mBind read1 _) s1 g1 = _
    unfold mBind
    rw [h2]
    dsimp only
    show (mBind read2 _) s2 g2 = _
    unfold mBind
    rw [h3]
    dsimp only
    rw [if_pos hbig]
  · intro s g
    exact ⟨srOnly_read1 s g, srOnly_read2 s g⟩

/-- C8 witness: the EXIF skip at an oversized byte-array entry, the
IPTC skip at a record of size `0xffff`, and the glob preservation of
the reads, all at concrete inputs. -/
theorem C8_oversized_skip_witness :
    (decodeTagBodyW cTriv (fun _ _ => pure ()) "IFD0" 0x100 1 20000 "T"
        none = skip 4) ∧
    (decodeRecord cTriv [] [] (SR.mk0 [5, 7, 255, 255] true) Glob.mk0 =
      ((skip ((0xffff : Nat) : Int) >>= fun _ => pure (([] : List Nat),
          ([] : SlicesMap)))
        ((read2 ((read1 ((read1 (SR.mk0 [5, 7, 255, 255] true)
            Glob.mk0).1) ((read1 (SR.mk0 [5, 7, 255, 255] true)
            Glob.mk0).2.1)).1)
          ((read1 ((read1 (SR.mk0 [5, 7, 255, 255] true) Glob.mk0).1)
            ((read1 (SR.mk0 [5, 7, 255, 255] true) Glob.mk0).2.1)).2.1)).1)
        ((read2 ((read1 ((read1 (SR.mk0 [5, 7, 255, 255] true)
            Glob.mk0).1) ((read1 (SR.mk0 [5, 7, 255, 255] true)
            Glob.mk0).2.1)).1)
          ((read1 ((read1 (SR.mk0 [5, 7, 255, 255] true) Glob.mk0).1)
            ((read1 (SR.mk0 [5, 7, 255, 255] true) Glob.mk0).2.1)).2.1)).2.1))) ∧
    ((read1 (SR.mk0 [5, 7, 255, 255] true) Glob.mk0).2.1 = Glob.mk0 ∧
      (read2 (SR.mk0 [5, 7, 255, 255] true) Glob.mk0).2.1 = Glob.mk0) :=
  ⟨C8_oversized_skip.1 cTriv (fun _ _ => pure ()) "IFD0" 0x100 1 20000 "T"
      none 1 (by decide) (by decide) rfl (by decide),
    C8_oversized_skip.2.1 cTriv [] [] (SR.mk0 [5, 7, 255, 255] true)
      Glob.mk0 _ _ 5 _ _ 7 _ _ 0xffff rfl rfl rfl (by decide),
    C8_oversized_skip.2.2 (SR.mk0 [5, 7, 255, 255] true) Glob.mk0⟩

/-- C9: the reported RAW dimensions are the DefaultCropSize only when
one is present with both dimensions positive; otherwise the selection
falls back to the largest-area pair among IFD0, the ExifIFD and the
largest SubIFD (ties keep the earlier candidate). -/
theorem C9_raw_dimensions :
    (∀ (width height exifW exifH subW subH cropW cropH : Nat),
        cropW > 0 → cropH > 0 →
      rawSelect width height exifW exifH subW subH true cropW cropH =
        (cropW, cropH)) ∧
    (∀ (width height exifW exifH subW subH : Nat) (hasCrop : Bool)
        (cropW cropH : Nat),
        ¬(hasCrop = true ∧ cropW > 0 ∧ cropH > 0) →
      rawSelect width height exifW exifH subW subH hasCrop cropW cropH ∈
        [(width, height), (exifW, exifH), (subW, subH)] ∧
      ∀ p ∈ [(width, height), (exifW, exifH), (subW, subH)],
        p.1 * p.2 ≤
          (rawSelect width height exifW exifH subW subH hasCrop
            cropW cropH).1 *
          (rawSelect width height exifW exifH subW subH hasCrop
            cropW cropH).2) := by
  constructor
  · intro width height exifW exifH subW subH cropW cropH hw hh
    unfold rawSelect
    dsimp only
    rw [if_pos ⟨rfl, hw, hh⟩]
  · intro width height exifW exifH subW subH hasCrop cropW cropH hc
    unfold rawSelect
    dsimp only
    rw [if_neg hc]
    by_cases h1 : exifW * exifH > width * height
    · rw [if_pos h1]
      dsimp only
      by_cases h2 : subW * subH > exifW * exifH
      · rw [if_pos h2]
        refine ⟨by simp, ?_⟩
        intro p hp
        rcases List.mem_cons.mp hp with rfl | hp
        · dsimp only
          linarith
        rcases List.mem_cons.mp hp with rfl | hp
        · dsimp only
          linarith
        rcases List.mem_cons.mp hp with rfl | hp
        · dsimp only
          linarith
        · cases hp
      · rw [if_neg h2]
        refine ⟨by simp, ?_⟩
        intro p hp
        rcases List.mem_cons.mp hp with rfl | hp
        · dsimp only
          linarith
        rcases List.mem_cons.mp hp with rfl | hp
        · dsimp only
          linarith
        rcases List.mem_cons.mp hp with rfl | hp
        · dsimp only
          linarith
        · cases hp
    · rw [if_neg h1]
      dsimp only
      by_cases h2 : subW * subH > width * height
      · rw [if_pos h2]
        refine ⟨by simp, ?_⟩
        intro p hp
        rcases List.mem_cons.mp hp with rfl | hp
        · dsimp only
          linarith
        rcases List.mem_cons.mp hp with rfl | hp
        · dsimp only
          linarith
        rcases List.mem_cons.mp hp with rfl | hp
        · dsimp only
          linarith
        · cases hp
      · rw [if_neg h2]
        refine ⟨by simp, ?_⟩
        intro p hp
        rcases List.mem_cons.mp hp with rfl | hp
        · dsimp only
          linarith
        rcases List.mem_cons.mp hp with rfl | hp
        · dsimp only
          linarith
        rcases List.mem_cons.mp hp with rfl | hp
        · dsimp only
          linarith
        · cases hp

/-- C9 counterexample: a DefaultCropSize tag parsed successfully with
zero dimensions (SHORT×2 zeros) is present but ignored — the selection
returns the largest-area fallback, not the crop size. -/
theorem C9_raw_dimensions_counterexample :
    (readDefaultCropSize 3 2 (SR.mk0 [0, 0, 0, 0] true) Glob.mk0).2.2 =
      .ok (0, 0, true) ∧
    rawSelect 100 100 0 0 0 0 true 0 0 = (100, 100) ∧
    ((100 : Nat), (100 : Nat)) ≠ ((0 : Nat), (0 : Nat)) :=
  ⟨rfl, rfl, by decide⟩

/-- C9 witness: the positive-crop override and the fallback selection
at concrete dimensions. -/
theorem C9_raw_dimensions_witness :
    (rawSelect 1 1 2 2 3 3 true 5 6 = (5, 6)) ∧
    (rawSelect 10 10 20 20 30 30 false 5 6 ∈
        [(10, 10), (20, 20), (30, 30)] ∧
      ∀ p ∈ [((10 : Nat), (10 : Nat)), (20, 20), (30, 30)],
        p.1 * p.2 ≤ (rawSelect 10 10 20 20 30 30 false 5 6).1 *
          (rawSelect 10 10 20 20 30 30 false 5 6).2) :=
  ⟨C9_raw_dimensions.1 1 1 2 2 3 3 5 6 (by decide) (by decide),
    C9_raw_dimensions.2 10 10 20 20 30 30 false 5 6 (by decide)⟩

/-- C10 witness: the outcome routing at a concrete input (the
projections of the run instantiate the outcome). -/
theorem C10_no_panic_escape_witness :
    decodeTIFF oraTriv uoW id [] =
      ((tifDecode (tiffCtx oraTriv uoW id) 4 (SR.mk0 [] true) Glob.mk0).2.1,
        errFinal
          (tifDecode (tiffCtx oraTriv uoW id) 4 (SR.mk0 [] true)
            Glob.mk0).1.readErr
          (errRawOf
            (tifDecode (tiffCtx oraTriv uoW id) 4 (SR.mk0 [] true)
              Glob.mk0).2.2)) :=
  C10_no_panic_escape.2.2 oraTriv uoW id [] _ _ _ (by decide) rfl

end Imagemeta
